import Mathlib

/-!
Verification development for the fbi-bot interval-tracking engine.

The definitions below are a shallow embedding of the event handlers in
src/cogs/events.py and the data model in src/models.py.  Timestamps are
modelled as natural numbers, database tables as lists of row structures,
and each Discord event handler as a pure function from database state to
database state.  SQL SELECT ... ORDER BY ts DESC LIMIT 1 queries are
modelled by findLatest, and the in-place UPDATE of the selected row by
replaceFirst.
-/

/-- Discord presence status values (models.DiscordStatus). -/
inductive DiscordStatus where
  | online
  | idle
  | dnd
  | offline
  | streaming
deriving Repr, DecidableEq

/-- Discord activity type values (models.ActivityType). -/
inductive ActivityType where
  | competing
  | custom
  | listening
  | playing
  | streaming
  | watching
deriving Repr, DecidableEq

/-- Discord voice sub-state flags (models.VoiceStateType). -/
inductive VoiceStateType where
  | deaf
  | mute
  | self_deaf
  | self_mute
  | self_stream
  | self_video
deriving Repr, DecidableEq

/-- Discord message type values (models.MessageType). -/
inductive MessageType where
  | default
  | recipient_add
  | recipient_remove
  | call
  | channel_name_change
  | channel_icon_change
  | channel_pinned_message
  | user_join
  | guild_boost
  | guild_boost_tier_1
  | guild_boost_tier_2
  | guild_boost_tier_3
  | channel_follow_add
  | guild_discovery_disqualified
  | guild_discovery_requalified
  | guild_discovery_grace_period_initial_warning
  | guild_discovery_grace_period_final_warning
  | thread_created
  | reply
  | chat_input_command
  | thread_starter_message
  | guild_invite_reminder
  | context_menu_command
  | role_subscription_purchase
  | interaction_premium_upsell
  | stage_start
  | stage_end
  | stage_speaker
  | stage_raise_hand
  | stage_topic
  | guild_application_premium_subscription
  | guild_incident_alert_mode_enabled
  | guild_incident_alert_mode_disabled
  | guild_incident_report_raid
  | guild_incident_report_false_alarm
  | purchase_notification
  | poll_result
deriving Repr, DecidableEq

/-- Embedding of the string-to-enum parse with fallback in
_handle_status_change: DiscordStatus(after.status.name.lower()) with
ValueError mapped to DiscordStatus.OFFLINE. -/
def parse_discord_status (s : String) : DiscordStatus :=
  match s with
  | "online" => .online
  | "idle" => .idle
  | "dnd" => .dnd
  | "offline" => .offline
  | "streaming" => .streaming
  | _ => .offline

/-- The status strings recognized by the DiscordStatus enum. -/
def recognizedStatusStrings : List String :=
  ["online", "idle", "dnd", "offline", "streaming"]

/-- Embedding of ActivityType(activity.type.name.lower()) in
_extract_real_activities; ValueError becomes none (the loop continues). -/
def parse_activity_type (s : String) : Option ActivityType :=
  match s with
  | "competing" => some .competing
  | "custom" => some .custom
  | "listening" => some .listening
  | "playing" => some .playing
  | "streaming" => some .streaming
  | "watching" => some .watching
  | _ => none

/-- Embedding of MessageType(message.type.name.lower()) in on_message;
ValueError or AttributeError maps to MessageType.DEFAULT. -/
def parse_message_type (s : String) : MessageType :=
  match s with
  | "default" => .default
  | "recipient_add" => .recipient_add
  | "recipient_remove" => .recipient_remove
  | "call" => .call
  | "channel_name_change" => .channel_name_change
  | "channel_icon_change" => .channel_icon_change
  | "channel_pinned_message" => .channel_pinned_message
  | "user_join" => .user_join
  | "guild_boost" => .guild_boost
  | "guild_boost_tier_1" => .guild_boost_tier_1
  | "guild_boost_tier_2" => .guild_boost_tier_2
  | "guild_boost_tier_3" => .guild_boost_tier_3
  | "channel_follow_add" => .channel_follow_add
  | "guild_discovery_disqualified" => .guild_discovery_disqualified
  | "guild_discovery_requalified" => .guild_discovery_requalified
  | "guild_discovery_grace_period_initial_warning" => .guild_discovery_grace_period_initial_warning
  | "guild_discovery_grace_period_final_warning" => .guild_discovery_grace_period_final_warning
  | "thread_created" => .thread_created
  | "reply" => .reply
  | "chat_input_command" => .chat_input_command
  | "thread_starter_message" => .thread_starter_message
  | "guild_invite_reminder" => .guild_invite_reminder
  | "context_menu_command" => .context_menu_command
  | "role_subscription_purchase" => .role_subscription_purchase
  | "interaction_premium_upsell" => .interaction_premium_upsell
  | "stage_start" => .stage_start
  | "stage_end" => .stage_end
  | "stage_speaker" => .stage_speaker
  | "stage_raise_hand" => .stage_raise_hand
  | "stage_topic" => .stage_topic
  | "guild_application_premium_subscription" => .guild_application_premium_subscription
  | "guild_incident_alert_mode_enabled" => .guild_incident_alert_mode_enabled
  | "guild_incident_alert_mode_disabled" => .guild_incident_alert_mode_disabled
  | "guild_incident_report_raid" => .guild_incident_report_raid
  | "guild_incident_report_false_alarm" => .guild_incident_report_false_alarm
  | "purchase_notification" => .purchase_notification
  | "poll_result" => .poll_result
  | _ => .default

/-! Row structures mirroring the tables of src/models.py.  Surrogate
autoincrement primary keys are kept only where another table references
them (voice_sessions.id, referenced by voice_state_log.session_id); the
other tables' id columns are never read by the handlers and are omitted. -/

/-- A row of the user table (models.User). -/
structure UserRow where
  user_id : Nat
  first_seen : Nat
deriving Repr, DecidableEq

/-- A row of message_activity (models.MessageActivity). -/
structure MessageRow where
  message_id : Nat
  user_id : Nat
  channel_id : Nat
  message_type : MessageType
  has_attachments : Bool
  has_embeds : Bool
  character_count : Nat
  sent_at : Nat
deriving Repr, DecidableEq

/-- A row of voice_sessions (models.VoiceSession). -/
structure SessionRow where
  id : Nat
  user_id : Nat
  channel_id : Nat
  joined_at : Nat
  left_at : Option Nat
deriving Repr, DecidableEq

/-- A row of voice_state_log (models.VoiceStateLog). -/
structure VoiceStateRow where
  session_id : Nat
  state_type : VoiceStateType
  started_at : Nat
  ended_at : Option Nat
deriving Repr, DecidableEq

/-- A row of presence_status_log (models.PresenceStatusLog). -/
structure PresenceRow where
  user_id : Nat
  status_type : DiscordStatus
  set_at : Nat
  changed_at : Option Nat
deriving Repr, DecidableEq

/-- A row of activity_log (models.ActivityLog). -/
structure ActivityRow where
  user_id : Nat
  activity_type : ActivityType
  activity_name : String
  started_at : Nat
  ended_at : Option Nat
deriving Repr, DecidableEq

/-- A row of custom_status (models.CustomStatus).  status_text and emoji
are nullable in the schema. -/
structure CustomStatusRow where
  user_id : Nat
  status_text : Option String
  emoji : Option String
  set_at : Nat
  cleared_at : Option Nat
deriving Repr, DecidableEq

/-- A row of user_names_history (models.UserNameHistory). -/
structure NameRow where
  user_id : Nat
  username : String
  display_name : String
  global_name : Option String
  effective_from : Nat
  effective_until : Option Nat
deriving Repr, DecidableEq

/-- The persisted store: one list per table, plus the autoincrement
counter for voice_sessions.id. -/
structure DB where
  users : List UserRow
  messages : List MessageRow
  sessions : List SessionRow
  voiceStates : List VoiceStateRow
  presence : List PresenceRow
  activities : List ActivityRow
  customs : List CustomStatusRow
  names : List NameRow
  nextSessionId : Nat
deriving Repr, DecidableEq

/-- The empty store. -/
def emptyDB : DB := ⟨[], [], [], [], [], [], [], [], 0⟩

/-! Normalized inbound event shapes.  A discord activity is modelled by
the fields the handlers read: the lowered type name (none models a falsy
type), the activity name (none models a falsy None or empty name), and
for custom statuses the state text and emoji (none models falsy). -/

/-- The fields of a discord activity object read by the handlers. -/
structure DAct where
  typName : Option String
  name : Option String
  state : Option String
  emoji : Option String
deriving Repr, DecidableEq

/-- The fields of a discord member snapshot read by the handlers. -/
structure Member where
  id : Nat
  bot : Bool
  username : String
  displayName : String
  globalName : Option String
  statusName : String
  activities : List DAct
  joinedAt : Nat
deriving Repr, DecidableEq

/-- The fields of a discord voice state snapshot read by the handlers. -/
structure VState where
  channel : Option Nat
  deaf : Bool
  mute : Bool
  self_deaf : Bool
  self_mute : Bool
  self_stream : Bool
  self_video : Bool
deriving Repr, DecidableEq

/-- Read one of the six tracked boolean flags off a voice state. -/
def flag_of (vs : VState) : VoiceStateType → Bool
  | .deaf => vs.deaf
  | .mute => vs.mute
  | .self_deaf => vs.self_deaf
  | .self_mute => vs.self_mute
  | .self_stream => vs.self_stream
  | .self_video => vs.self_video

/-! Generic list primitives modelling the SQL access patterns. -/

/-- Model of SELECT ... WHERE p ORDER BY ts DESC LIMIT 1: returns the
first row (in insertion order) attaining the maximal timestamp among the
rows satisfying p. -/
def findLatest (p : α → Bool) (ts : α → Nat) : List α → Option α
  | [] => none
  | r :: rest =>
    if p r && rest.all (fun x => !p x || decide (ts x ≤ ts r)) then some r
    else findLatest p ts rest

/-- Model of an in-place UPDATE of one previously selected row: replace
the first occurrence of old with new. -/
def replaceFirst [DecidableEq α] (old new : α) : List α → List α
  | [] => []
  | r :: rest => if r = old then new :: rest else r :: replaceFirst old new rest

/-- Select the latest row satisfying p (if any) and update it with upd;
the other rows are untouched. -/
def closeFound [DecidableEq α] (p : α → Bool) (ts : α → Nat) (upd : α → α)
    (l : List α) : List α :=
  match findLatest p ts l with
  | none => l
  | some r => replaceFirst r (upd r) l

/-! The event handlers of src/cogs/events.py.  Each handler receives the
single timestamp at which the event is processed (the code reads the
clock during handling). -/

/-- Embedding of Events._create_name_history_entry: close every current
name entry of the user, then insert a new current entry carrying the full
name triple. -/
def create_name_history_entry (db : DB) (userId : Nat) (username displayName : String)
    (globalName : Option String) (now : Nat) : DB :=
  { db with names :=
      db.names.map (fun e =>
        if e.user_id = userId ∧ e.effective_until = none
        then { e with effective_until := some now } else e)
      ++ [⟨userId, username, displayName, globalName, now, none⟩] }

/-- Embedding of Events.get_or_create_user: insert a user row and an
initial name history entry if the user is unknown; otherwise leave the
store unchanged. -/
def get_or_create_user (db : DB) (m : Member) (now : Nat) : DB :=
  if db.users.any (fun r => decide (r.user_id = m.id)) then db
  else
    let db1 := { db with users := db.users ++ [⟨m.id, m.joinedAt⟩] }
    create_name_history_entry db1 m.id m.username m.displayName m.globalName now

/-- Embedding of Events._handle_name_change. -/
def handle_name_change (db : DB) (m : Member) (now : Nat) : DB :=
  let db1 := get_or_create_user db m now
  create_name_history_entry db1 m.id m.username m.displayName m.globalName now

/-- Embedding of Events._handle_status_change: close the most recently
set open presence row, then defensively close every remaining open
presence row of the user, then insert one new open row with the parsed
status. -/
def handle_status_change (db : DB) (u : Nat) (statusName : String) (now : Nat) : DB :=
  let pres1 := closeFound
    (fun r => decide (r.user_id = u ∧ r.changed_at = none)) (fun r => r.set_at)
    (fun r => { r with changed_at := some now }) db.presence
  let pres2 := pres1.map (fun r =>
    if r.user_id = u ∧ r.changed_at = none then { r with changed_at := some now } else r)
  { db with presence := pres2 ++ [⟨u, parse_discord_status statusName, now, none⟩] }

/-- Embedding of Events._extract_real_activities: the set of
(activity type, activity name) pairs of the snapshot, excluding custom
statuses and unparseable types; built as a duplicate-free list. -/
def extract_real_activities (acts : List DAct) : List (ActivityType × String) :=
  acts.foldl (fun s a =>
    match a.typName, a.name with
    | some t, some n =>
      if t ≠ "custom" then
        match parse_activity_type t with
        | some ty => if (ty, n) ∈ s then s else s ++ [(ty, n)]
        | none => s
      else s
    | _, _ => s) []

/-- Embedding of Events._start_activity. -/
def start_activity (db : DB) (u : Nat) (ty : ActivityType) (n : String) (now : Nat) : DB :=
  { db with activities := db.activities ++ [⟨u, ty, n, now, none⟩] }

/-- Embedding of Events._end_activity: close the most recently started
open row matching (user, type, name), if any. -/
def end_activity (db : DB) (u : Nat) (ty : ActivityType) (n : String) (now : Nat) : DB :=
  { db with activities := (closeFound
      (fun r => decide (r.user_id = u ∧ r.activity_type = ty ∧ r.activity_name = n ∧ r.ended_at = none))
      (fun r => r.started_at) (fun r => { r with ended_at := some now }) db.activities) }

/-- Embedding of Events._handle_activity_change: close each pair present
before but absent after, then start each pair absent before but present
after. -/
def handle_activity_change (db : DB) (u : Nat) (beforeActs afterActs : List DAct)
    (now : Nat) : DB :=
  let ba := extract_real_activities beforeActs
  let aa := extract_real_activities afterActs
  let db1 := ba.foldl (fun d p => if p ∈ aa then d else end_activity d u p.1 p.2 now) db
  aa.foldl (fun d p => if p ∈ ba then d else start_activity d u p.1 p.2 now) db1

/-- Embedding of Events._extract_custom_status: the (state, emoji) pair
of the first custom activity in the snapshot, if any. -/
def extract_custom_status : List DAct → Option (Option String × Option String)
  | [] => none
  | a :: rest =>
    if a.typName = some "custom" then some (a.state, a.emoji)
    else extract_custom_status rest

/-- Embedding of Events._handle_custom_status_change: when the value
changed and a new value is present, insert it unless an identical
(user, text, emoji) row already exists; when the new value is absent,
do nothing. -/
def handle_custom_status_change (db : DB) (u : Nat) (beforeActs afterActs : List DAct)
    (now : Nat) : DB :=
  let bc := extract_custom_status beforeActs
  let ac := extract_custom_status afterActs
  if bc = ac then db
  else
    match ac with
    | some (text, emoji) =>
      if db.customs.any (fun r => decide (r.user_id = u ∧ r.status_text = text ∧ r.emoji = emoji))
      then db
      else { db with customs := db.customs ++ [⟨u, text, emoji, now, none⟩] }
    | none => db

/-- The six (flag value, flag type) pairs of Events._track_voice_states,
in the order the code lists them. -/
def states_to_track (vs : VState) : List (Bool × VoiceStateType) :=
  [(vs.deaf, .deaf), (vs.mute, .mute), (vs.self_deaf, .self_deaf),
   (vs.self_mute, .self_mute), (vs.self_stream, .self_stream), (vs.self_video, .self_video)]

/-- Embedding of Events._track_voice_states: open one sub-state row under
the given session for every flag that is set in the snapshot. -/
def track_voice_states (db : DB) (sid : Nat) (vs : VState) (now : Nat) : DB :=
  { db with voiceStates := (db.voiceStates ++
      ((states_to_track vs).filter (fun p => p.1)).map (fun p => ⟨sid, p.2, now, none⟩)) }

/-- The open-session lookup shared by _handle_voice_leave and
_handle_voice_state_change: latest open session of the user in the given
channel. -/
def find_open_session (db : DB) (u c : Nat) : Option SessionRow :=
  findLatest (fun s => decide (s.user_id = u ∧ s.channel_id = c ∧ s.left_at = none))
    (fun s => s.joined_at) db.sessions

/-- Embedding of Events._end_active_voice_states: close every open
sub-state row of the given session. -/
def end_active_voice_states (db : DB) (sid : Nat) (now : Nat) : DB :=
  { db with voiceStates := db.voiceStates.map (fun r =>
      if r.session_id = sid ∧ r.ended_at = none then { r with ended_at := some now } else r) }

/-- Embedding of Events._handle_voice_leave: close the open session of
the user in the old channel (if any) and cascade-close all open sub-state
rows of that session. -/
def handle_voice_leave (db : DB) (u : Nat) (oldChannel : Nat) (now : Nat) : DB :=
  match find_open_session db u oldChannel with
  | none => db
  | some s =>
    let db1 := { db with sessions := replaceFirst s { s with left_at := some now } db.sessions }
    end_active_voice_states db1 s.id now

/-- Embedding of Events._handle_voice_join: insert a new open session row
and open sub-state rows for the flags set in the initial snapshot. -/
def handle_voice_join (db : DB) (u : Nat) (newChannel : Nat) (vs : VState) (now : Nat) : DB :=
  let sid := db.nextSessionId
  let db1 := { db with
      sessions := (db.sessions ++ [⟨sid, u, newChannel, now, none⟩]),
      nextSessionId := sid + 1 }
  track_voice_states db1 sid vs now

/-- Embedding of Events._handle_voice_move: leave the old channel then
join the new one, at one shared timestamp. -/
def handle_voice_move (db : DB) (u : Nat) (oldChannel newChannel : Nat) (vs : VState)
    (now : Nat) : DB :=
  handle_voice_join (handle_voice_leave db u oldChannel now) u newChannel vs now

/-- Embedding of Events._end_voice_state: close the most recently started
open sub-state row of the given session and flag, if any. -/
def end_voice_state (db : DB) (sid : Nat) (t : VoiceStateType) (now : Nat) : DB :=
  { db with voiceStates := (closeFound
      (fun r => decide (r.session_id = sid ∧ r.state_type = t ∧ r.ended_at = none))
      (fun r => r.started_at) (fun r => { r with ended_at := some now }) db.voiceStates) }

/-- One iteration of the loop in Events._update_voice_states: when the
flag flipped, close the old sub-state row if it was set before, and open
a new one if it is set after. -/
def upd_flag (db : DB) (sid : Nat) (bf af : Bool) (t : VoiceStateType) (now : Nat) : DB :=
  if bf = af then db
  else
    let db1 := if bf then end_voice_state db sid t now else db
    if af then { db1 with voiceStates := db1.voiceStates ++ [⟨sid, t, now, none⟩] } else db1

/-- The six (before flag, after flag, flag type) triples of
Events._update_voice_states, in the order the code lists them. -/
def state_changes (b a : VState) : List (Bool × Bool × VoiceStateType) :=
  [(b.deaf, a.deaf, .deaf), (b.mute, a.mute, .mute),
   (b.self_deaf, a.self_deaf, .self_deaf), (b.self_mute, a.self_mute, .self_mute),
   (b.self_stream, a.self_stream, .self_stream), (b.self_video, a.self_video, .self_video)]

/-- Embedding of Events._update_voice_states. -/
def update_voice_states (db : DB) (sid : Nat) (b a : VState) (now : Nat) : DB :=
  (state_changes b a).foldl (fun d p => upd_flag d sid p.1 p.2.1 p.2.2 now) db

/-- Embedding of Events._handle_voice_state_change: in-place flag changes
within the same channel, applied to the user's open session there. -/
def handle_voice_state_change (db : DB) (u : Nat) (b a : VState) (now : Nat) : DB :=
  match a.channel with
  | none => db
  | some c =>
    match find_open_session db u c with
    | none => db
    | some s => update_voice_states db s.id b a now

/-- Embedding of Events._end_active_sessions (the teardown coordinator):
at one shared timestamp, close every open session of the user together
with its open sub-state rows, then close the latest open presence row,
then close every open activity row. -/
def end_active_sessions (db : DB) (u : Nat) (now : Nat) : DB :=
  let active := db.sessions.filter (fun s => decide (s.user_id = u ∧ s.left_at = none))
  let db1 := active.foldl (fun d s =>
      let d1 := { d with sessions := replaceFirst s { s with left_at := some now } d.sessions }
      end_active_voice_states d1 s.id now) db
  let db2 := { db1 with presence := (closeFound
      (fun r => decide (r.user_id = u ∧ r.changed_at = none)) (fun r => r.set_at)
      (fun r => { r with changed_at := some now }) db1.presence) }
  { db2 with activities := (db2.activities.map (fun r =>
      if r.user_id = u ∧ r.ended_at = none then { r with ended_at := some now } else r)) }

/-- Embedding of Events.on_message: bot authors are ignored before any
store access; otherwise the author is created if unknown and a fact row
is inserted (a duplicate message id makes the insert fail on the primary
key, leaving the store unchanged by the insert). -/
def on_message (db : DB) (m : Member) (messageId channelId : Nat) (typName : String)
    (hasAttachments hasEmbeds : Bool) (charCount sentAt : Nat) (now : Nat) : DB :=
  if m.bot then db
  else
    let db1 := get_or_create_user db m now
    if db1.messages.any (fun r => decide (r.message_id = messageId)) then db1
    else { db1 with messages := (db1.messages ++
        [⟨messageId, m.id, channelId, parse_message_type typName, hasAttachments, hasEmbeds,
          charCount, sentAt⟩]) }

/-- Embedding of Events.on_message_edit: bot authors are ignored before
any store access; otherwise the fact row, if present, has its metadata
updated in place. -/
def on_message_edit (db : DB) (m : Member) (messageId : Nat) (charCount : Nat)
    (hasAttachments hasEmbeds : Bool) : DB :=
  if m.bot then db
  else { db with messages := (db.messages.map (fun r =>
      if r.message_id = messageId then
        { r with character_count := charCount, has_attachments := hasAttachments,
                 has_embeds := hasEmbeds }
      else r)) }

/-- Embedding of Events.on_presence_update. -/
def on_presence_update (db : DB) (b a : Member) (now : Nat) : DB :=
  if b.statusName = a.statusName ∧ b.activities = a.activities then db
  else
    let db1 := get_or_create_user db a now
    let db2 := if b.statusName ≠ a.statusName then handle_status_change db1 a.id a.statusName now
               else db1
    if b.activities ≠ a.activities then
      handle_custom_status_change
        (handle_activity_change db2 a.id b.activities a.activities now)
        a.id b.activities a.activities now
    else db2

/-- Embedding of Events.on_member_update: only name changes are handled. -/
def on_member_update (db : DB) (b a : Member) (now : Nat) : DB :=
  if b.username ≠ a.username ∨ b.displayName ≠ a.displayName ∨ b.globalName ≠ a.globalName
  then handle_name_change db a now else db

/-- Embedding of Events.on_voice_state_update: dispatch on the channel
shape of the transition. -/
def on_voice_state_update (db : DB) (m : Member) (b a : VState) (now : Nat) : DB :=
  let db1 := get_or_create_user db m now
  match b.channel, a.channel with
  | some c, none => handle_voice_leave db1 m.id c now
  | none, some c => handle_voice_join db1 m.id c a now
  | some c1, some c2 =>
    if c1 ≠ c2 then handle_voice_move db1 m.id c1 c2 a now
    else handle_voice_state_change db1 m.id b a now
  | none, none => db1

/-- The normalized inbound events handled by the Events cog. -/
inductive Event where
  | memberJoin (m : Member)
  | memberRemove (m : Member)
  | memberUpdate (before after : Member)
  | presenceUpdate (before after : Member)
  | messageSent (author : Member) (messageId channelId : Nat) (typName : String)
      (hasAttachments hasEmbeds : Bool) (charCount sentAt : Nat)
  | messageEdit (author : Member) (messageId charCount : Nat) (hasAttachments hasEmbeds : Bool)
  | messageDelete (author : Member)
  | voiceUpdate (m : Member) (before after : VState)
deriving Repr, DecidableEq

/-- Process one event at the given timestamp (the listener dispatch of the
Events cog). -/
def step (db : DB) (e : Event) (now : Nat) : DB :=
  match e with
  | .memberJoin m => get_or_create_user db m now
  | .memberRemove m => end_active_sessions db m.id now
  | .memberUpdate b a => on_member_update db b a now
  | .presenceUpdate b a => on_presence_update db b a now
  | .messageSent m mid cid ty att emb cc sa => on_message db m mid cid ty att emb cc sa now
  | .messageEdit m mid cc att emb => on_message_edit db m mid cc att emb
  | .messageDelete _ => db
  | .voiceUpdate m b a => on_voice_state_update db m b a now

/-- Process a timed event sequence from the given store. -/
def runFrom (db : DB) : List (Event × Nat) → DB
  | [] => db
  | et :: rest => runFrom (step db et.1 et.2) rest

/-! Open-row counters, one per dimension key of the claims. -/

/-- Number of open presence rows of a subject. -/
def openPresenceCount (db : DB) (u : Nat) : Nat :=
  db.presence.countP (fun r => decide (r.user_id = u ∧ r.changed_at = none))

/-- Number of open voice session rows of a subject. -/
def openSessionCount (db : DB) (u : Nat) : Nat :=
  db.sessions.countP (fun s => decide (s.user_id = u ∧ s.left_at = none))

/-- Number of open voice sub-state rows for a (session id, flag) key. -/
def openVoiceStateCount (db : DB) (sid : Nat) (t : VoiceStateType) : Nat :=
  db.voiceStates.countP (fun r => decide (r.session_id = sid ∧ r.state_type = t ∧ r.ended_at = none))

/-- Number of open activity rows for a (subject, type, name) key. -/
def openActivityCount (db : DB) (u : Nat) (ty : ActivityType) (n : String) : Nat :=
  db.activities.countP (fun r =>
    decide (r.user_id = u ∧ r.activity_type = ty ∧ r.activity_name = n ∧ r.ended_at = none))

/-- Number of current (open) identity rows of a subject. -/
def openNameCount (db : DB) (u : Nat) : Nat :=
  db.names.countP (fun e => decide (e.user_id = u ∧ e.effective_until = none))

/-- The at-most-one-open-row-per-dimension-key invariant of the claims:
presence keyed by subject, voice session keyed by subject, voice sub-state
keyed by (session id, flag), activity keyed by (subject, type, name),
identity history keyed by subject. -/
def AtMostOneOpen (db : DB) : Prop :=
  (∀ u, openPresenceCount db u ≤ 1) ∧
  (∀ u, openSessionCount db u ≤ 1) ∧
  (∀ sid t, openVoiceStateCount db sid t ≤ 1) ∧
  (∀ u ty n, openActivityCount db u ty n ≤ 1) ∧
  (∀ u, openNameCount db u ≤ 1)

/-- Auxiliary structural invariant: every stored session id, and every
session id referenced by a sub-state row, is below the autoincrement
counter (freshness of new session ids). -/
def SessionIdsBounded (db : DB) : Prop :=
  (∀ s ∈ db.sessions, s.id < db.nextSessionId) ∧
  (∀ r ∈ db.voiceStates, r.session_id < db.nextSessionId)

/-- The inductive invariant used to prove AtMostOneOpen. -/
def StoreInv (db : DB) : Prop :=
  AtMostOneOpen db ∧ SessionIdsBounded db

/-- Consistency of one event with the current store, the discipline a
gateway-ordered stream satisfies: a voice join finds no open session for
the subject; a voice move's old channel matches every open session of the
subject; an in-place voice change's before-flags cover every open
sub-state of the subject's open sessions; a presence update's
before-snapshot covers every open activity pair of the subject. -/
def validEvent (db : DB) : Event → Bool
  | .voiceUpdate m b a =>
    match b.channel, a.channel with
    | none, some _ =>
      db.sessions.all (fun s => !(decide (s.user_id = m.id ∧ s.left_at = none)))
    | some c1, some c2 =>
      if c1 = c2 then
        db.sessions.all (fun s => !(decide (s.user_id = m.id ∧ s.left_at = none)) ||
          db.voiceStates.all (fun r =>
            !(decide (r.session_id = s.id ∧ r.ended_at = none)) || flag_of b r.state_type))
      else
        db.sessions.all (fun s => !(decide (s.user_id = m.id ∧ s.left_at = none)) ||
          decide (s.channel_id = c1))
    | _, _ => true
  | .presenceUpdate bm am =>
    db.activities.all (fun r => !(decide (r.user_id = am.id ∧ r.ended_at = none)) ||
      decide ((r.activity_type, r.activity_name) ∈ extract_real_activities bm.activities))
  | _ => true

/-- Consistency of a whole timed event sequence starting at the given
store. -/
def validFrom (db : DB) : List (Event × Nat) → Bool
  | [] => true
  | et :: rest => validEvent db et.1 && validFrom (step db et.1 et.2) rest

/-! Generic lemmas about the list primitives. -/

theorem replaceFirst_cons {α : Type} [DecidableEq α] (old new r : α) (rest : List α) :
    replaceFirst old new (r :: rest) =
      if r = old then new :: rest else r :: replaceFirst old new rest := rfl

theorem mem_of_mem_replaceFirst {α : Type} [DecidableEq α] {old new x : α} {l : List α}
    (hx : x ∈ replaceFirst old new l) : x ∈ l ∨ x = new := by
  induction l with
  | nil => cases hx
  | cons r rest ih =>
    rw [replaceFirst_cons] at hx
    by_cases h : r = old
    · rw [if_pos h] at hx
      rcases List.mem_cons.mp hx with h1 | h1
      · right; exact h1
      · left; exact List.mem_cons_of_mem _ h1
    · rw [if_neg h] at hx
      rcases List.mem_cons.mp hx with h1 | h1
      · left; exact h1 ▸ List.mem_cons_self _ _
      · rcases ih h1 with h2 | h2
        · left; exact List.mem_cons_of_mem _ h2
        · right; exact h2

theorem mem_replaceFirst_self {α : Type} [DecidableEq α] {old : α} (new : α) {l : List α}
    (h : old ∈ l) : new ∈ replaceFirst old new l := by
  induction l with
  | nil => cases h
  | cons r rest ih =>
    rw [replaceFirst_cons]
    by_cases hr : r = old
    · rw [if_pos hr]; exact List.mem_cons_self _ _
    · rw [if_neg hr]
      rcases List.mem_cons.mp h with h1 | h1
      · exact absurd h1.symm hr
      · exact List.mem_cons_of_mem _ (ih h1)

theorem countP_replaceFirst_le {α : Type} [DecidableEq α] (p : α → Bool) (old new : α)
    (l : List α) (h : p new = true → p old = true) :
    (replaceFirst old new l).countP p ≤ l.countP p := by
  induction l with
  | nil => exact Nat.le_refl _
  | cons r rest ih =>
    rw [replaceFirst_cons]
    by_cases hr : r = old
    · rw [if_pos hr, List.countP_cons, List.countP_cons, hr]
      by_cases h1 : p new = true
      · rw [if_pos h1, if_pos (h h1)]
      · rw [if_neg h1]
        omega
    · rw [if_neg hr, List.countP_cons, List.countP_cons]
      omega

theorem countP_replaceFirst_eq {α : Type} [DecidableEq α] (p : α → Bool) (old new : α)
    (l : List α) (h : p new = p old) :
    (replaceFirst old new l).countP p = l.countP p := by
  induction l with
  | nil => rfl
  | cons r rest ih =>
    rw [replaceFirst_cons]
    by_cases hr : r = old
    · rw [if_pos hr, List.countP_cons, List.countP_cons, hr, h]
    · rw [if_neg hr, List.countP_cons, List.countP_cons, ih]

theorem countP_replaceFirst_closed {α : Type} [DecidableEq α] (p : α → Bool) (old new : α)
    (l : List α) (hold : p old = true) (hnew : p new = false) (hmem : old ∈ l) :
    (replaceFirst old new l).countP p + 1 = l.countP p := by
  induction l with
  | nil => cases hmem
  | cons r rest ih =>
    rw [replaceFirst_cons]
    by_cases hr : r = old
    · rw [if_pos hr, List.countP_cons, List.countP_cons, hr, hold, hnew]
      simp
    · rw [if_neg hr, List.countP_cons, List.countP_cons]
      rcases List.mem_cons.mp hmem with h1 | h1
      · exact absurd h1.symm hr
      · rw [← ih h1]; omega

theorem map_replaceFirst {α : Type} [DecidableEq α] (g : α → α) (old new : α) (l : List α)
    (h : g new = g old) : (replaceFirst old new l).map g = l.map g := by
  induction l with
  | nil => rfl
  | cons r rest ih =>
    rw [replaceFirst_cons]
    by_cases hr : r = old
    · rw [if_pos hr, List.map_cons, List.map_cons, hr, h]
    · rw [if_neg hr, List.map_cons, List.map_cons, ih]

theorem filter_replaceFirst_nil {α : Type} [DecidableEq α] (p : α → Bool) (old new : α)
    (l : List α) (h : l.filter p = [old]) (hnew : p new = false) :
    (replaceFirst old new l).filter p = [] := by
  induction l with
  | nil => simp at h
  | cons r rest ih =>
    by_cases hp : p r = true
    · rw [List.filter_cons_of_pos hp] at h
      injection h with h1 h2
      rw [replaceFirst_cons, if_pos h1, List.filter_cons_of_neg (by simp [hnew]), h2]
    · have hro : ¬ r = old := by
        intro heq
        have hpold : p old = true := by
          have : old ∈ List.filter p (r :: rest) := h ▸ List.mem_singleton_self old
          exact List.of_mem_filter this
        rw [← heq] at hpold
        exact hp hpold
      rw [List.filter_cons_of_neg (by simpa using hp)] at h
      rw [replaceFirst_cons, if_neg hro, List.filter_cons_of_neg (by simpa using hp)]
      exact ih h

theorem findLatest_mem {α : Type} {p : α → Bool} {ts : α → Nat} {l : List α} {r : α}
    (h : findLatest p ts l = some r) : r ∈ l := by
  induction l with
  | nil => cases h
  | cons x rest ih =>
    rw [findLatest] at h
    by_cases hc : (p x && rest.all fun y => !p y || decide (ts y ≤ ts x)) = true
    · rw [if_pos hc] at h
      exact (Option.some_inj.mp h) ▸ List.mem_cons_self _ _
    · rw [if_neg hc] at h
      exact List.mem_cons_of_mem _ (ih h)

theorem findLatest_prop {α : Type} {p : α → Bool} {ts : α → Nat} {l : List α} {r : α}
    (h : findLatest p ts l = some r) : p r = true := by
  induction l with
  | nil => cases h
  | cons x rest ih =>
    rw [findLatest] at h
    by_cases hc : (p x && rest.all fun y => !p y || decide (ts y ≤ ts x)) = true
    · rw [if_pos hc] at h
      have hpx : p x = true := by
        have := hc
        simp only [Bool.and_eq_true] at this
        exact this.1
      exact (Option.some_inj.mp h) ▸ hpx
    · rw [if_neg hc] at h
      exact ih h

theorem findLatest_eq_none_of {α : Type} {p : α → Bool} {ts : α → Nat} {l : List α}
    (h : ∀ x ∈ l, p x = false) : findLatest p ts l = none := by
  induction l with
  | nil => rfl
  | cons x rest ih =>
    rw [findLatest]
    have hx : p x = false := h x (List.mem_cons_self _ _)
    rw [if_neg (by simp [hx])]
    exact ih fun y hy => h y (List.mem_cons_of_mem _ hy)

theorem findLatest_isSome {α : Type} {p : α → Bool} {ts : α → Nat} {l : List α}
    (hx : ∃ x ∈ l, p x = true) : (findLatest p ts l).isSome = true := by
  induction l with
  | nil => obtain ⟨x, hm, _⟩ := hx; cases hm
  | cons r rest ih =>
    rw [findLatest]
    by_cases hc : (p r && rest.all fun y => !p y || decide (ts y ≤ ts r)) = true
    · rw [if_pos hc]; rfl
    · rw [if_neg hc]
      apply ih
      obtain ⟨x, hm, hp⟩ := hx
      rcases List.mem_cons.mp hm with h1 | h1
      · subst h1
        by_cases hall : (rest.all fun y => !p y || decide (ts y ≤ ts x)) = true
        · exact absurd (by rw [hp, hall]; rfl) hc
        · rw [List.all_eq_true] at hall
          push_neg at hall
          obtain ⟨y, hy, hny⟩ := hall
          refine ⟨y, hy, ?_⟩
          by_cases hpy : p y = true
          · exact hpy
          · exact absurd (by simp [hpy]) hny
      · exact ⟨x, h1, hp⟩

theorem findLatest_of_filter_singleton {α : Type} (p q : α → Bool) (ts : α → Nat)
    (l : List α) (s : α) (hq : l.filter q = [s]) (himp : ∀ x, p x = true → q x = true)
    (hp : p s = true) : findLatest p ts l = some s := by
  induction l with
  | nil => simp at hq
  | cons r rest ih =>
    by_cases hqr : q r = true
    · rw [List.filter_cons_of_pos hqr] at hq
      injection hq with h1 h2
      subst h1
      have hrest : ∀ y ∈ rest, p y = false := by
        intro y hy
        by_cases hpy : p y = true
        · have hqy := himp y hpy
          have hmem : y ∈ rest.filter q := List.mem_filter.mpr ⟨hy, hqy⟩
          rw [h2] at hmem
          cases hmem
        · simpa using hpy
      have hall : (rest.all fun y => !p y || decide (ts y ≤ ts r)) = true := by
        rw [List.all_eq_true]
        intro y hy
        simp [hrest y hy]
      rw [findLatest, if_pos (by rw [hp, hall]; rfl)]
    · have hpr : p r = false := by
        by_cases h1 : p r = true
        · exact absurd (himp r h1) hqr
        · simpa using h1
      rw [List.filter_cons_of_neg (by simpa using hqr)] at hq
      rw [findLatest, if_neg (by simp [hpr])]
      exact ih hq

theorem forall_false_of_findLatest_eq_none {α : Type} {p : α → Bool} {ts : α → Nat}
    {l : List α} (h : findLatest p ts l = none) : ∀ x ∈ l, p x = false := by
  induction l with
  | nil => intro x hx; cases hx
  | cons r rest ih =>
    rw [findLatest] at h
    by_cases hc : (p r && rest.all fun y => !p y || decide (ts y ≤ ts r)) = true
    · rw [if_pos hc] at h; cases h
    · rw [if_neg hc] at h
      have hrest := ih h
      have hpr : p r = false := by
        by_cases h1 : p r = true
        · have hall : (rest.all fun y => !p y || decide (ts y ≤ ts r)) = true := by
            rw [List.all_eq_true]
            intro y hy
            simp [hrest y hy]
          exact absurd (by rw [h1, hall]; rfl) hc
        · simpa using h1
      intro x hx
      rcases List.mem_cons.mp hx with h1 | h1
      · exact h1 ▸ hpr
      · exact hrest x h1

theorem countP_closeFound_le {α : Type} [DecidableEq α] (p q : α → Bool) (ts : α → Nat)
    (upd : α → α) (l : List α) (h : ∀ a, p a = true → q (upd a) = true → q a = true) :
    (closeFound p ts upd l).countP q ≤ l.countP q := by
  unfold closeFound
  cases hf : findLatest p ts l with
  | none => exact Nat.le_refl _
  | some r => exact countP_replaceFirst_le q r (upd r) l (h r (findLatest_prop hf))

theorem countP_closeFound_eq {α : Type} [DecidableEq α] (p q : α → Bool) (ts : α → Nat)
    (upd : α → α) (l : List α) (h : ∀ a, p a = true → q (upd a) = q a) :
    (closeFound p ts upd l).countP q = l.countP q := by
  unfold closeFound
  cases hf : findLatest p ts l with
  | none => rfl
  | some r => exact countP_replaceFirst_eq q r (upd r) l (h r (findLatest_prop hf))

theorem mem_of_mem_closeFound {α : Type} [DecidableEq α] {p : α → Bool} {ts : α → Nat}
    {upd : α → α} {l : List α} {x : α} (hx : x ∈ closeFound p ts upd l) :
    x ∈ l ∨ ∃ a ∈ l, x = upd a := by
  unfold closeFound at hx
  cases hf : findLatest p ts l with
  | none => rw [hf] at hx; exact Or.inl hx
  | some r =>
    rw [hf] at hx
    rcases mem_of_mem_replaceFirst hx with h1 | h1
    · exact Or.inl h1
    · exact Or.inr ⟨r, findLatest_mem hf, h1⟩

theorem map_close_id {α : Type} (p : α → Bool) (upd : α → α) (l : List α)
    (h : ∀ a ∈ l, p a = false) :
    l.map (fun a => if p a = true then upd a else a) = l := by
  induction l with
  | nil => rfl
  | cons r rest ih =>
    rw [List.map_cons, if_neg (by simp [h r (List.mem_cons_self _ _)]),
        ih fun y hy => h y (List.mem_cons_of_mem _ hy)]

theorem closeFound_eq_map_of_countP_le_one {α : Type} [DecidableEq α] (p : α → Bool)
    (ts : α → Nat) (upd : α → α) (l : List α) (h : l.countP p ≤ 1) :
    closeFound p ts upd l = l.map (fun a => if p a = true then upd a else a) := by
  induction l with
  | nil => rfl
  | cons r rest ih =>
    by_cases hpr : p r = true
    · have hrest0 : rest.countP p = 0 := by
        rw [List.countP_cons_of_pos _ _ hpr] at h
        omega
      have hallrest : ∀ y ∈ rest, p y = false := by
        intro y hy
        have := List.countP_eq_zero.mp hrest0 y hy
        simpa using this
      have hall : (rest.all fun y => !p y || decide (ts y ≤ ts r)) = true := by
        rw [List.all_eq_true]
        intro y hy
        simp [hallrest y hy]
      unfold closeFound
      rw [findLatest, if_pos (by rw [hpr, hall]; rfl)]
      dsimp only
      rw [replaceFirst_cons, if_pos rfl, List.map_cons, if_pos hpr,
          map_close_id p upd rest hallrest]
    · have hrest1 : rest.countP p ≤ 1 := by
        rw [List.countP_cons_of_neg _ _ (by simpa using hpr)] at h
        exact h
      have hpr' : p r = false := by simpa using hpr
      have hstep : findLatest p ts (r :: rest) = findLatest p ts rest := by
        rw [findLatest, if_neg (by simp [hpr'])]
      unfold closeFound
      rw [hstep]
      cases hf : findLatest p ts rest with
      | none =>
        have hallrest := forall_false_of_findLatest_eq_none hf
        rw [List.map_cons, if_neg (by simp [hpr']), map_close_id p upd rest hallrest]
      | some x =>
        have hrx : ¬ r = x := by
          intro heq
          rw [heq] at hpr'
          rw [findLatest_prop hf] at hpr'
          cases hpr'
        dsimp only
        rw [replaceFirst_cons, if_neg hrx, List.map_cons, if_neg (by simp [hpr'])]
        have hmap := ih hrest1
        unfold closeFound at hmap
        rw [hf] at hmap
        dsimp only at hmap
        rw [hmap]

theorem foldl_proj_const {δ β γ : Type} (proj : δ → β) (F : δ → γ → δ) (l : List γ) (d : δ)
    (h : ∀ d x, proj (F d x) = proj d) : proj (l.foldl F d) = proj d := by
  induction l generalizing d with
  | nil => rfl
  | cons x xs ih => rw [List.foldl_cons, ih (F d x), h d x]

theorem foldl_meas_le {δ γ : Type} (meas : δ → Nat) (F : δ → γ → δ) (l : List γ) (d : δ)
    (h : ∀ d x, meas (F d x) ≤ meas d) : meas (l.foldl F d) ≤ meas d := by
  induction l generalizing d with
  | nil => exact Nat.le_refl _
  | cons x xs ih => exact Nat.le_trans (ih (F d x)) (h d x)

theorem countP_map_le_of {α : Type} (p : α → Bool) (g : α → α) (l : List α)
    (h : ∀ a, p (g a) = true → p a = true) : (l.map g).countP p ≤ l.countP p := by
  rw [List.countP_map]
  exact List.countP_mono_left fun x _ hx => h x hx

theorem countP_map_zero {α : Type} (p : α → Bool) (g : α → α) (l : List α)
    (h : ∀ a, p (g a) = false) : (l.map g).countP p = 0 := by
  rw [List.countP_map]
  exact List.countP_eq_zero.mpr fun a _ => by simp [Function.comp, h a]

theorem countP_map_eq_of {α : Type} (p : α → Bool) (g : α → α) (l : List α)
    (h : ∀ a, p (g a) = p a) : (l.map g).countP p = l.countP p := by
  rw [List.countP_map]
  exact List.countP_congr fun x _ => by simp [Function.comp, h x]

theorem map_closeFound_eq {α : Type} [DecidableEq α] (g : α → α) (p : α → Bool)
    (ts : α → Nat) (upd : α → α) (l : List α) (h : ∀ a, p a = true → g (upd a) = g a) :
    (closeFound p ts upd l).map g = l.map g := by
  unfold closeFound
  cases hf : findLatest p ts l with
  | none => rfl
  | some r => exact map_replaceFirst g r (upd r) l (h r (findLatest_prop hf))

/-- C2: a presence status change closes every open presence row of the
subject (even if more than one exists) at the event time, then inserts
exactly one new open row carrying the parsed status value; status strings
outside the recognized set parse to the default value offline instead of
failing. -/
theorem c2_status_change_closes_all_then_opens_one (db : DB) (u : Nat) (raw : String)
    (now : Nat) :
    (handle_status_change db u raw now).presence =
      (db.presence.map (fun r =>
        if r.user_id = u ∧ r.changed_at = none then { r with changed_at := some now } else r)
      ++ [⟨u, parse_discord_status raw, now, none⟩])
    ∧ (raw ∉ recognizedStatusStrings → parse_discord_status raw = DiscordStatus.offline) := by
  constructor
  · unfold handle_status_change
    dsimp only
    congr 1
    apply map_closeFound_eq
    intro a ha
    simp only [decide_eq_true_eq] at ha
    simp [ha.1, ha.2]
  · intro h
    unfold parse_discord_status
    split <;> first
      | rfl
      | (exfalso; exact h (by simp_all [recognizedStatusStrings]))

/-- Witness for C2 at a concrete unrecognized status string. -/
theorem c2_witness : parse_discord_status "banana" = DiscordStatus.offline :=
  (c2_status_change_closes_all_then_opens_one emptyDB 1 "banana" 0).2 (by decide)

/-- C9: an identity change closes the currently-effective row at the
event time and inserts one new current row carrying the full name triple,
so that afterwards exactly one identity row of the subject is current
(other subjects unaffected); and two rapid identity changes starting from
one current row yield exactly three rows (two closed, one open) whose
consecutive effective_until and effective_from timestamps coincide, with
no gaps or overlaps. -/
theorem c9_identity_history_close_insert_exactly_one_current :
    (∀ (db : DB) (u : Nat) (un dn : String) (gn : Option String) (now : Nat),
      openNameCount (create_name_history_entry db u un dn gn now) u = 1 ∧
      (∀ v, v ≠ u →
        openNameCount (create_name_history_entry db u un dn gn now) v = openNameCount db v) ∧
      (∀ e ∈ db.names, e.user_id = u → e.effective_until = none →
        { e with effective_until := some now } ∈ (create_name_history_entry db u un dn gn now).names) ∧
      (⟨u, un, dn, gn, now, none⟩ : NameRow) ∈ (create_name_history_entry db u un dn gn now).names) ∧
    (∀ (u : Nat) (un0 dn0 un1 dn1 un2 dn2 : String) (gn0 gn1 gn2 : Option String)
       (t0 t1 t2 : Nat) (db0 : DB),
      db0.names = [⟨u, un0, dn0, gn0, t0, none⟩] →
      (create_name_history_entry (create_name_history_entry db0 u un1 dn1 gn1 t1)
          u un2 dn2 gn2 t2).names =
        [⟨u, un0, dn0, gn0, t0, some t1⟩, ⟨u, un1, dn1, gn1, t1, some t2⟩,
         ⟨u, un2, dn2, gn2, t2, none⟩]) := by
  constructor
  · intro db u un dn gn now
    refine ⟨?_, ?_, ?_, ?_⟩
    · unfold openNameCount create_name_history_entry
      dsimp only
      rw [List.countP_append]
      have h1 : ((db.names.map fun e =>
          if e.user_id = u ∧ e.effective_until = none
          then { e with effective_until := some now } else e)).countP
            (fun e => decide (e.user_id = u ∧ e.effective_until = none)) = 0 := by
        apply countP_map_zero
        intro a
        by_cases ha : a.user_id = u ∧ a.effective_until = none
        · rw [if_pos ha]; simp
        · rw [if_neg ha]; simpa using ha
      rw [h1]
      simp
    · intro v hv
      unfold openNameCount create_name_history_entry
      dsimp only
      rw [List.countP_append]
      have h1 : ((db.names.map fun e =>
          if e.user_id = u ∧ e.effective_until = none
          then { e with effective_until := some now } else e)).countP
            (fun e => decide (e.user_id = v ∧ e.effective_until = none)) = db.names.countP
            (fun e => decide (e.user_id = v ∧ e.effective_until = none)) := by
        apply countP_map_eq_of
        intro a
        by_cases ha : a.user_id = u ∧ a.effective_until = none
        · rw [if_pos ha]
          simp [ha.1, Ne.symm hv]
        · rw [if_neg ha]
      rw [h1]
      simp [Ne.symm hv]
    · intro e hmem hu hopen
      unfold create_name_history_entry
      dsimp only
      apply List.mem_append_left
      refine List.mem_map.mpr ⟨e, hmem, ?_⟩
      dsimp only
      rw [if_pos ⟨hu, hopen⟩]
    · unfold create_name_history_entry
      dsimp only
      apply List.mem_append_right
      exact List.mem_singleton_self _
  · intro u un0 dn0 un1 dn1 un2 dn2 gn0 gn1 gn2 t0 t1 t2 db0 h0
    unfold create_name_history_entry
    simp [h0]

/-- Witness for C9: two identity changes on a store holding one current
row for subject 7. -/
theorem c9_witness :
    (create_name_history_entry
        (create_name_history_entry
          { emptyDB with names := [⟨7, "a", "A", none, 1, none⟩] } 7 "b" "B" none 5)
        7 "c" "C" none 6).names =
      [⟨7, "a", "A", none, 1, some 5⟩, ⟨7, "b", "B", none, 5, some 6⟩,
       ⟨7, "c", "C", none, 6, none⟩] :=
  c9_identity_history_close_insert_exactly_one_current.2 7 "a" "A" "b" "B" "c" "C"
    none none none 1 5 6 { emptyDB with names := [⟨7, "a", "A", none, 1, none⟩] } rfl

/-- C10: a message-sent or message-edit event whose author is a bot
returns before any store access: the persisted state is left entirely
unchanged. -/
theorem c10_bot_author_events_leave_store_unchanged (db : DB) (m : Member)
    (hbot : m.bot = true) (messageId channelId : Nat) (typName : String)
    (hasAttachments hasEmbeds : Bool) (charCount sentAt now : Nat)
    (charCount2 : Nat) (att2 emb2 : Bool) (now2 : Nat) :
    step db (.messageSent m messageId channelId typName hasAttachments hasEmbeds
      charCount sentAt) now = db ∧
    step db (.messageEdit m messageId charCount2 att2 emb2) now2 = db := by
  constructor
  · show on_message db m messageId channelId typName hasAttachments hasEmbeds
      charCount sentAt now = db
    unfold on_message
    simp [hbot]
  · show on_message_edit db m messageId charCount2 att2 emb2 = db
    unfold on_message_edit
    simp [hbot]

/-- Witness for C10 with a concrete bot author. -/
theorem c10_witness :
    step emptyDB (.messageSent ⟨1, true, "bot", "Bot", none, "online", [], 0⟩
      10 20 "default" false false 5 3) 4 = emptyDB ∧
    step emptyDB (.messageEdit ⟨1, true, "bot", "Bot", none, "online", [], 0⟩
      10 6 true true) 9 = emptyDB :=
  c10_bot_author_events_leave_store_unchanged emptyDB
    ⟨1, true, "bot", "Bot", none, "online", [], 0⟩ rfl 10 20 "default" false false 5 3 4 6
    true true 9

/-- C8: when the new custom status value differs from the previous one,
an insertion is skipped whenever an identical (subject, text, emoji) row
already exists anywhere in history; clearing the custom status with no
replacement never writes anything (in particular no close timestamp); and
the sequence set V, clear, set V again stores exactly one row for V. -/
theorem c8_custom_status_dedup_and_no_close :
    (∀ (db : DB) (u : Nat) (b a : List DAct) (now : Nat) (text emoji : Option String),
      extract_custom_status a = some (text, emoji) →
      extract_custom_status b ≠ extract_custom_status a →
      (∃ r ∈ db.customs, r.user_id = u ∧ r.status_text = text ∧ r.emoji = emoji) →
      handle_custom_status_change db u b a now = db) ∧
    (∀ (db : DB) (u : Nat) (b a : List DAct) (now : Nat),
      extract_custom_status a = none → handle_custom_status_change db u b a now = db) ∧
    (∀ (db0 : DB) (u : Nat) (text emoji : Option String) (t1 t2 t3 : Nat),
      (∀ r ∈ db0.customs, ¬(r.user_id = u ∧ r.status_text = text ∧ r.emoji = emoji)) →
      (handle_custom_status_change
        (handle_custom_status_change
          (handle_custom_status_change db0 u [] [⟨some "custom", none, text, emoji⟩] t1)
          u [⟨some "custom", none, text, emoji⟩] [] t2)
        u [] [⟨some "custom", none, text, emoji⟩] t3).customs
      = db0.customs ++ [⟨u, text, emoji, t1, none⟩]) := by
  refine ⟨?_, ?_, ?_⟩
  · intro db u b a now text emoji ha hne hex
    have hb : ¬ (extract_custom_status b = some (text, emoji)) := by
      rw [← ha]; exact hne
    have hany : (db.customs.any fun r =>
        decide (r.user_id = u ∧ r.status_text = text ∧ r.emoji = emoji)) = true := by
      rw [List.any_eq_true]
      obtain ⟨r, hr, h1, h2, h3⟩ := hex
      exact ⟨r, hr, by simp [h1, h2, h3]⟩
    unfold handle_custom_status_change
    dsimp only
    rw [ha, if_neg hb]
    dsimp only
    rw [if_pos hany]
  · intro db u b a now hnone
    unfold handle_custom_status_change
    dsimp only
    rw [hnone]
    by_cases h : extract_custom_status b = none
    · rw [if_pos h]
    · rw [if_neg h]
  · intro db0 u text emoji t1 t2 t3 hno
    have hno2 : ¬ ∃ x ∈ db0.customs, x.user_id = u ∧ x.status_text = text ∧ x.emoji = emoji := by
      intro hc
      obtain ⟨r, hr, hp⟩ := hc
      exact hno r hr hp
    simp [handle_custom_status_change, extract_custom_status, hno2]

/-- Witness for C8: set, clear, set again for a concrete value on the
empty store. -/
theorem c8_witness :
    (handle_custom_status_change
      (handle_custom_status_change
        (handle_custom_status_change emptyDB 3 [] [⟨some "custom", none, some "hi", none⟩] 1)
        3 [⟨some "custom", none, some "hi", none⟩] [] 2)
      3 [] [⟨some "custom", none, some "hi", none⟩] 4).customs
    = emptyDB.customs ++ [⟨3, some "hi", none, 1, none⟩] :=
  c8_custom_status_dedup_and_no_close.2.2 emptyDB 3 (some "hi") none 1 2 4
    (fun r hr => by cases hr)

/-- C4: the failing input for the persisted-interval validity claim.  A
voice leave processed at time 3 for a session opened at time 5 persists
left_at = 3 strictly below joined_at = 5: no rejection happens anywhere
before or at the write (the CheckConstraint objects in src/models.py are
created at module level but never attached to a table, so they enforce
nothing). -/
theorem c4_close_before_open_is_persisted :
    ∃ s ∈ (handle_voice_leave
      { emptyDB with sessions := [⟨0, 1, 2, 5, none⟩], nextSessionId := 1 } 1 2 3).sessions,
      s.joined_at = 5 ∧ s.left_at = some 3 ∧ 3 < 5 := by decide

/-- C5 counterexample: the claim as stated is false on the code.  On a
store whose open session for (user 1, channel 2) was joined at time 5, a
voice-leave event processed at time 3 sets left_at = 3, and the resulting
row violates left_at ≥ joined_at. -/
theorem c5_counterexample :
    (find_open_session { emptyDB with
        sessions := [⟨0, 1, 2, 5, none⟩],
        voiceStates := [⟨0, VoiceStateType.self_mute, 5, none⟩],
        nextSessionId := 1 } 1 2).isSome = true ∧
    ∀ s ∈ (handle_voice_leave { emptyDB with
        sessions := [⟨0, 1, 2, 5, none⟩],
        voiceStates := [⟨0, VoiceStateType.self_mute, 5, none⟩],
        nextSessionId := 1 } 1 2 3).sessions,
      s.left_at = some 3 ∧ ¬ (s.joined_at ≤ 3) := by decide

/-- C5 (amended: provided the event time does not precede the found
session's joined_at): a voice-leave event whose open-session lookup for
(subject, old channel) succeeds sets that session's left_at to the event
time (so left_at ≥ joined_at), and sets an end timestamp on every open
sub-state row carrying that session's id, leaving no open sub-state row
for the session. -/
theorem c5_voice_leave_closes_session_and_cascades (db : DB) (u c now : Nat)
    (s : SessionRow) (hfind : find_open_session db u c = some s)
    (hts : s.joined_at ≤ now) :
    (handle_voice_leave db u c now).sessions =
      replaceFirst s { s with left_at := some now } db.sessions ∧
    ({ s with left_at := some now } : SessionRow) ∈ (handle_voice_leave db u c now).sessions ∧
    s.joined_at ≤ now ∧
    (handle_voice_leave db u c now).voiceStates = db.voiceStates.map (fun r =>
      if r.session_id = s.id ∧ r.ended_at = none then { r with ended_at := some now } else r) ∧
    (∀ t, openVoiceStateCount (handle_voice_leave db u c now) s.id t = 0) := by
  have hsmem : s ∈ db.sessions := findLatest_mem hfind
  have hsess : (handle_voice_leave db u c now).sessions =
      replaceFirst s { s with left_at := some now } db.sessions := by
    unfold handle_voice_leave
    rw [hfind]
    rfl
  have hvs : (handle_voice_leave db u c now).voiceStates = db.voiceStates.map (fun r =>
      if r.session_id = s.id ∧ r.ended_at = none then { r with ended_at := some now } else r) := by
    unfold handle_voice_leave
    rw [hfind]
    rfl
  refine ⟨hsess, ?_, hts, hvs, ?_⟩
  · rw [hsess]
    exact mem_replaceFirst_self _ hsmem
  · intro t
    unfold openVoiceStateCount
    rw [hvs]
    apply countP_map_zero
    intro a
    by_cases ha : a.session_id = s.id ∧ a.ended_at = none
    · rw [if_pos ha]; simp
    · rw [if_neg ha]
      simp only [decide_eq_false_iff_not]
      intro hc
      exact ha ⟨hc.1, hc.2.2⟩

/-- Witness for C5 on a concrete store with an open session and one open
sub-state row. -/
theorem c5_witness :
    (⟨0, 1, 2, 5, some 9⟩ : SessionRow) ∈
      (handle_voice_leave { emptyDB with
        sessions := [⟨0, 1, 2, 5, none⟩],
        voiceStates := [⟨0, VoiceStateType.self_mute, 5, none⟩],
        nextSessionId := 1 } 1 2 9).sessions :=
  (c5_voice_leave_closes_session_and_cascades _ 1 2 9 ⟨0, 1, 2, 5, none⟩
    (by decide) (by decide)).2.1

/-- C6: a channel move on a subject whose only open session is for the
old channel equals the leave handler for the old channel followed by the
join handler for the new channel at the shared event time, and produces
exactly one session row of the subject closed at that time (for the old
channel) and exactly one open session row (for the new channel, joined at
that time). -/
theorem c6_voice_move_is_leave_then_join (db : DB) (u c1 c2 now : Nat) (vs : VState)
    (s : SessionRow)
    (hopen : db.sessions.filter (fun x => decide (x.user_id = u ∧ x.left_at = none)) = [s])
    (hchan : s.channel_id = c1) (hne : c1 ≠ c2) :
    handle_voice_move db u c1 c2 vs now =
      handle_voice_join (handle_voice_leave db u c1 now) u c2 vs now ∧
    (handle_voice_move db u c1 c2 vs now).sessions =
      (replaceFirst s { s with left_at := some now } db.sessions
        ++ [⟨db.nextSessionId, u, c2, now, none⟩]) ∧
    ({ s with left_at := some now } : SessionRow).channel_id = c1 ∧
    ({ s with left_at := some now } : SessionRow) ∈ (handle_voice_move db u c1 c2 vs now).sessions ∧
    (handle_voice_move db u c1 c2 vs now).sessions.filter
        (fun x => decide (x.user_id = u ∧ x.left_at = none)) =
      [⟨db.nextSessionId, u, c2, now, none⟩] := by
  have hs_in : s ∈ db.sessions.filter (fun x => decide (x.user_id = u ∧ x.left_at = none)) := by
    rw [hopen]
    exact List.mem_singleton_self s
  have hqs : s.user_id = u ∧ s.left_at = none := by
    have h1 := (List.mem_filter.mp hs_in).2
    simpa using h1
  have hsmem : s ∈ db.sessions := List.mem_of_mem_filter hs_in
  have hfind : find_open_session db u c1 = some s := by
    unfold find_open_session
    apply findLatest_of_filter_singleton _
      (fun x => decide (x.user_id = u ∧ x.left_at = none)) _ _ _ hopen
    · intro x hx
      rw [decide_eq_true_eq] at hx ⊢
      exact ⟨hx.1, hx.2.2⟩
    · rw [decide_eq_true_eq]
      exact ⟨hqs.1, hchan, hqs.2⟩
  have hmove : handle_voice_move db u c1 c2 vs now =
      handle_voice_join (handle_voice_leave db u c1 now) u c2 vs now := rfl
  have hleave : (handle_voice_leave db u c1 now).sessions =
      replaceFirst s { s with left_at := some now } db.sessions := by
    unfold handle_voice_leave
    rw [hfind]
    rfl
  have hleaveN : (handle_voice_leave db u c1 now).nextSessionId = db.nextSessionId := by
    unfold handle_voice_leave
    rw [hfind]
    rfl
  have hsess : (handle_voice_move db u c1 c2 vs now).sessions =
      (replaceFirst s { s with left_at := some now } db.sessions
        ++ [⟨db.nextSessionId, u, c2, now, none⟩]) := by
    rw [hmove]
    unfold handle_voice_join track_voice_states
    dsimp only
    rw [hleave, hleaveN]
  refine ⟨hmove, hsess, hchan, ?_, ?_⟩
  · rw [hsess]
    exact List.mem_append_left _ (mem_replaceFirst_self _ hsmem)
  · rw [hsess, List.filter_append]
    rw [filter_replaceFirst_nil _ s { s with left_at := some now } db.sessions hopen (by simp)]
    simp

/-- Witness for C6 on a concrete store with one open session. -/
theorem c6_witness :
    (handle_voice_move { emptyDB with sessions := [⟨0, 1, 5, 2, none⟩], nextSessionId := 1 }
        1 5 6 ⟨some 6, false, false, false, false, false, false⟩ 4).sessions.filter
      (fun x => decide (x.user_id = 1 ∧ x.left_at = none)) = [⟨1, 1, 6, 4, none⟩] :=
  (c6_voice_move_is_leave_then_join
    { emptyDB with sessions := [⟨0, 1, 5, 2, none⟩], nextSessionId := 1 }
    1 5 6 4 ⟨some 6, false, false, false, false, false, false⟩ ⟨0, 1, 5, 2, none⟩
    (by decide) rfl (by decide)).2.2.2.2

/-- C3: a member-removal teardown on a store where the subject has
exactly one open voice session (carrying two open sub-state rows, and no
open sub-state row under any other of the subject's sessions) and exactly
one open presence row closes, at the one shared event timestamp, the open
session, every open sub-state row of that session, the open presence row
and every open activity row of the subject, leaving zero open rows in
those dimensions, while the custom-status table (and every other table)
is left entirely untouched. -/
theorem c3_teardown_cascades_and_leaves_customs_open (db : DB) (u now : Nat) (s : SessionRow)
    (h1 : db.sessions.filter (fun x => decide (x.user_id = u ∧ x.left_at = none)) = [s])
    (h2 : (db.voiceStates.filter
      (fun r => decide (r.session_id = s.id ∧ r.ended_at = none))).length = 2)
    (h2b : ∀ r ∈ db.voiceStates, r.ended_at = none →
      (∃ x ∈ db.sessions, x.user_id = u ∧ r.session_id = x.id) → r.session_id = s.id)
    (h3 : openPresenceCount db u = 1) :
    (end_active_sessions db u now).sessions =
      replaceFirst s { s with left_at := some now } db.sessions ∧
    (end_active_sessions db u now).voiceStates = db.voiceStates.map (fun r =>
      if r.session_id = s.id ∧ r.ended_at = none then { r with ended_at := some now } else r) ∧
    (end_active_sessions db u now).presence = db.presence.map (fun r =>
      if r.user_id = u ∧ r.changed_at = none then { r with changed_at := some now } else r) ∧
    (end_active_sessions db u now).activities = db.activities.map (fun r =>
      if r.user_id = u ∧ r.ended_at = none then { r with ended_at := some now } else r) ∧
    (end_active_sessions db u now).customs = db.customs ∧
    (end_active_sessions db u now).names = db.names ∧
    (end_active_sessions db u now).users = db.users ∧
    (end_active_sessions db u now).messages = db.messages ∧
    openSessionCount (end_active_sessions db u now) u = 0 ∧
    (∀ r ∈ (end_active_sessions db u now).voiceStates, r.ended_at = none →
      ¬ ∃ x ∈ (end_active_sessions db u now).sessions, x.user_id = u ∧ r.session_id = x.id) ∧
    openPresenceCount (end_active_sessions db u now) u = 0 ∧
    (∀ ty n, openActivityCount (end_active_sessions db u now) u ty n = 0) := by
  have hsess : (end_active_sessions db u now).sessions =
      replaceFirst s { s with left_at := some now } db.sessions := by
    unfold end_active_sessions
    rw [h1]
    rfl
  have hvs : (end_active_sessions db u now).voiceStates = db.voiceStates.map (fun r =>
      if r.session_id = s.id ∧ r.ended_at = none
      then { r with ended_at := some now } else r) := by
    unfold end_active_sessions
    rw [h1]
    rfl
  have hpres : (end_active_sessions db u now).presence = db.presence.map (fun r =>
      if r.user_id = u ∧ r.changed_at = none then { r with changed_at := some now } else r) := by
    have hstep : (end_active_sessions db u now).presence = closeFound
        (fun r => decide (r.user_id = u ∧ r.changed_at = none)) (fun r => r.set_at)
        (fun r => { r with changed_at := some now }) db.presence := by
      unfold end_active_sessions
      rw [h1]
      rfl
    rw [hstep, closeFound_eq_map_of_countP_le_one _ _ _ _ (by rw [← openPresenceCount]; omega)]
    apply List.map_congr_left
    intro a _
    by_cases h : a.user_id = u ∧ a.changed_at = none
    · rw [if_pos (by simpa using h), if_pos h]
    · rw [if_neg (by simpa using h), if_neg h]
  have hact : (end_active_sessions db u now).activities = db.activities.map (fun r =>
      if r.user_id = u ∧ r.ended_at = none then { r with ended_at := some now } else r) := by
    unfold end_active_sessions
    rw [h1]
    rfl
  have hcustoms : (end_active_sessions db u now).customs = db.customs := by
    unfold end_active_sessions
    rw [h1]
    rfl
  have hnames : (end_active_sessions db u now).names = db.names := by
    unfold end_active_sessions
    rw [h1]
    rfl
  have husers : (end_active_sessions db u now).users = db.users := by
    unfold end_active_sessions
    rw [h1]
    rfl
  have hmsgs : (end_active_sessions db u now).messages = db.messages := by
    unfold end_active_sessions
    rw [h1]
    rfl
  refine ⟨hsess, hvs, hpres, hact, hcustoms, hnames, husers, hmsgs, ?_, ?_, ?_, ?_⟩
  · unfold openSessionCount
    rw [hsess, List.countP_eq_length_filter,
        filter_replaceFirst_nil _ s { s with left_at := some now } db.sessions h1 (by simp)]
    rfl
  · intro r hr hropen hex
    rw [hvs] at hr
    obtain ⟨a, ha, hra⟩ := List.mem_map.mp hr
    by_cases hcond : a.session_id = s.id ∧ a.ended_at = none
    · rw [if_pos hcond] at hra
      rw [← hra] at hropen
      cases hropen
    · rw [if_neg hcond] at hra
      subst hra
      obtain ⟨x, hx, hxu, hxid⟩ := hex
      rw [hsess] at hx
      rcases mem_of_mem_replaceFirst hx with hx1 | hx1
      · exact hcond ⟨h2b a ha hropen ⟨x, hx1, hxu, hxid⟩, hropen⟩
      · subst hx1
        exact hcond ⟨hxid, hropen⟩
  · unfold openPresenceCount
    rw [hpres]
    apply countP_map_zero
    intro a
    by_cases h : a.user_id = u ∧ a.changed_at = none
    · rw [if_pos h]; simp
    · rw [if_neg h]
      simp only [decide_eq_false_iff_not]
      exact h
  · intro ty n
    unfold openActivityCount
    rw [hact]
    apply countP_map_zero
    intro a
    by_cases h : a.user_id = u ∧ a.ended_at = none
    · rw [if_pos h]; simp
    · rw [if_neg h]
      simp only [decide_eq_false_iff_not]
      intro hc
      exact h ⟨hc.1, hc.2.2.2⟩

/-- Witness for C3 on a concrete store: one open session with two open
sub-states, one open presence row, one open activity row, one open custom
status row. -/
theorem c3_witness :
    (end_active_sessions { emptyDB with
      sessions := [⟨0, 7, 4, 10, none⟩],
      voiceStates := [⟨0, VoiceStateType.self_mute, 10, none⟩,
                      ⟨0, VoiceStateType.self_deaf, 11, none⟩],
      presence := [⟨7, DiscordStatus.online, 10, none⟩],
      activities := [⟨7, ActivityType.playing, "X", 10, none⟩],
      customs := [⟨7, some "hi", none, 3, none⟩],
      nextSessionId := 1 } 7 20).customs = [⟨7, some "hi", none, 3, none⟩] :=
  (c3_teardown_cascades_and_leaves_customs_open { emptyDB with
      sessions := [⟨0, 7, 4, 10, none⟩],
      voiceStates := [⟨0, VoiceStateType.self_mute, 10, none⟩,
                      ⟨0, VoiceStateType.self_deaf, 11, none⟩],
      presence := [⟨7, DiscordStatus.online, 10, none⟩],
      activities := [⟨7, ActivityType.playing, "X", 10, none⟩],
      customs := [⟨7, some "hi", none, 3, none⟩],
      nextSessionId := 1 } 7 20 ⟨0, 7, 4, 10, none⟩
    (by decide) (by decide) (by decide) (by decide)).2.2.2.2.1

theorem findLatest_max {α : Type} {p : α → Bool} {ts : α → Nat} {l : List α} {r : α}
    (h : findLatest p ts l = some r) : ∀ x ∈ l, p x = true → ts x ≤ ts r := by
  induction l with
  | nil => intro x hx; cases hx
  | cons a rest ih =>
    rw [findLatest] at h
    by_cases hc : (p a && rest.all fun y => !p y || decide (ts y ≤ ts a)) = true
    · rw [if_pos hc] at h
      have hc2 := hc
      simp only [Bool.and_eq_true] at hc2
      obtain ⟨hpa, hall⟩ := hc2
      rw [List.all_eq_true] at hall
      obtain rfl := Option.some_inj.mp h
      intro x hx hpx
      rcases List.mem_cons.mp hx with h1 | h1
      · exact h1 ▸ Nat.le_refl _
      · have := hall x h1
        rw [hpx] at this
        simpa using this
    · rw [if_neg hc] at h
      intro x hx hpx
      rcases List.mem_cons.mp hx with h1 | h1
      · subst h1
        by_cases hpa : p x = true
        · have hnall : ¬ (rest.all fun y => !p y || decide (ts y ≤ ts x)) = true := by
            intro hall
            exact hc (by rw [hpa, hall]; rfl)
          rw [List.all_eq_true] at hnall
          push_neg at hnall
          obtain ⟨y, hy, hny⟩ := hnall
          have hpy : p y = true := by
            by_cases hh : p y = true
            · exact hh
            · exact absurd (by simp [hh]) hny
          have hty : ts x < ts y := by
            by_cases hh : ts y ≤ ts x
            · exact absurd (by simp [hpy, hh]) hny
            · omega
          exact Nat.le_trans (Nat.le_of_lt hty) (ih h y hy hpy)
        · exact absurd hpx hpa
      · exact ih h x h1 hpx

theorem mem_replaceFirst_of_ne {α : Type} [DecidableEq α] {old new r : α} {l : List α}
    (hr : r ∈ l) (hne : ¬ r = old) : r ∈ replaceFirst old new l := by
  induction l with
  | nil => cases hr
  | cons x rest ih =>
    rw [replaceFirst_cons]
    by_cases hx : x = old
    · rw [if_pos hx]
      rcases List.mem_cons.mp hr with h1 | h1
      · exact absurd (h1.trans hx) hne
      · exact List.mem_cons_of_mem _ h1
    · rw [if_neg hx]
      rcases List.mem_cons.mp hr with h1 | h1
      · exact h1 ▸ List.mem_cons_self _ _
      · exact List.mem_cons_of_mem _ (ih h1)

theorem mem_closeFound_of_not_matching {α : Type} [DecidableEq α] {q : α → Bool}
    {ts : α → Nat} {upd : α → α} {r : α} {l : List α} (hq : q r = false) (hr : r ∈ l) :
    r ∈ closeFound q ts upd l := by
  unfold closeFound
  cases hf : findLatest q ts l with
  | none => exact hr
  | some old =>
    apply mem_replaceFirst_of_ne hr
    intro heq
    rw [heq, findLatest_prop hf] at hq
    cases hq

theorem mem_closeFound_of_lt_max {α : Type} [DecidableEq α] {q : α → Bool} {ts : α → Nat}
    {upd : α → α} {r : α} {l : List α} (hr : r ∈ l)
    (hcomp : ∃ x ∈ l, q x = true ∧ ts r < ts x) : r ∈ closeFound q ts upd l := by
  unfold closeFound
  cases hf : findLatest q ts l with
  | none =>
    obtain ⟨x, hx, hqx, _⟩ := hcomp
    rw [forall_false_of_findLatest_eq_none hf x hx] at hqx
    cases hqx
  | some old =>
    apply mem_replaceFirst_of_ne hr
    intro heq
    obtain ⟨x, hx, hqx, hlt⟩ := hcomp
    have hle := findLatest_max hf x hx hqx
    rw [heq] at hlt
    omega

theorem length_replaceFirst {α : Type} [DecidableEq α] (old new : α) (l : List α) :
    (replaceFirst old new l).length = l.length := by
  induction l with
  | nil => rfl
  | cons x rest ih =>
    rw [replaceFirst_cons]
    by_cases hx : x = old
    · rw [if_pos hx]; rfl
    · rw [if_neg hx, List.length_cons, List.length_cons, ih]

theorem length_closeFound {α : Type} [DecidableEq α] (q : α → Bool) (ts : α → Nat)
    (upd : α → α) (l : List α) : (closeFound q ts upd l).length = l.length := by
  unfold closeFound
  cases findLatest q ts l with
  | none => rfl
  | some old => exact length_replaceFirst old (upd old) l

theorem end_activity_mem_of_not_matching (db : DB) (u : Nat) (ty : ActivityType)
    (n : String) (now : Nat) (r : ActivityRow) (hr : r ∈ db.activities)
    (hnm : ¬(r.user_id = u ∧ r.activity_type = ty ∧ r.activity_name = n ∧ r.ended_at = none)) :
    r ∈ (end_activity db u ty n now).activities := by
  unfold end_activity
  dsimp only
  exact mem_closeFound_of_not_matching (by simpa using hnm) hr

theorem end_activity_count_le (db : DB) (u : Nat) (ty : ActivityType) (n : String)
    (now : Nat) (u' : Nat) (ty' : ActivityType) (n' : String) :
    openActivityCount (end_activity db u ty n now) u' ty' n' ≤
      openActivityCount db u' ty' n' := by
  unfold openActivityCount end_activity
  dsimp only
  apply countP_closeFound_le
  intro a _ hq
  rw [decide_eq_true_eq] at hq
  have h4 := hq.2.2.2
  simp at h4

theorem end_activity_count_eq (db : DB) (u : Nat) (ty : ActivityType) (n : String)
    (now : Nat) (u' : Nat) (ty' : ActivityType) (n' : String)
    (h : ¬(u' = u ∧ ty' = ty ∧ n' = n)) :
    openActivityCount (end_activity db u ty n now) u' ty' n' =
      openActivityCount db u' ty' n' := by
  unfold openActivityCount end_activity
  dsimp only
  apply countP_closeFound_eq
  intro a ha
  rw [decide_eq_true_eq] at ha
  obtain ⟨ha1, ha2, ha3, ha4⟩ := ha
  have hrhs : decide (a.user_id = u' ∧ a.activity_type = ty' ∧ a.activity_name = n' ∧
      a.ended_at = none) = false := by
    rw [decide_eq_false_iff_not]
    intro hc
    exact h ⟨hc.1.symm.trans ha1, hc.2.1.symm.trans ha2, hc.2.2.1.symm.trans ha3⟩
  rw [hrhs]
  simp

theorem end_activity_count_self (db : DB) (u : Nat) (ty : ActivityType) (n : String)
    (now : Nat) :
    openActivityCount (end_activity db u ty n now) u ty n =
      openActivityCount db u ty n - 1 := by
  unfold openActivityCount end_activity
  dsimp only
  by_cases hex : ∃ x ∈ db.activities, (fun r => decide (r.user_id = u ∧
      r.activity_type = ty ∧ r.activity_name = n ∧ r.ended_at = none)) x = true
  · have hsome := @findLatest_isSome _ _ (fun r => r.started_at) _ hex
    unfold closeFound
    cases hf : findLatest (fun r => decide (r.user_id = u ∧ r.activity_type = ty ∧
        r.activity_name = n ∧ r.ended_at = none)) (fun r => r.started_at) db.activities with
    | none => rw [hf] at hsome; cases hsome
    | some old =>
      dsimp only
      have hold := findLatest_prop hf
      have hmem := findLatest_mem hf
      have hnew : (fun r => decide (r.user_id = u ∧ r.activity_type = ty ∧
          r.activity_name = n ∧ r.ended_at = none))
          ({ old with ended_at := some now } : ActivityRow) = false := by simp
      have hcl := countP_replaceFirst_closed
        (fun r => decide (r.user_id = u ∧ r.activity_type = ty ∧ r.activity_name = n ∧
          r.ended_at = none))
        old { old with ended_at := some now } db.activities hold hnew hmem
      omega
  · push_neg at hex
    have hall : ∀ x ∈ db.activities, (fun r => decide (r.user_id = u ∧ r.activity_type = ty ∧
        r.activity_name = n ∧ r.ended_at = none)) x = false := by
      intro x hx
      have := hex x hx
      simpa using this
    have hnone := @findLatest_eq_none_of _ _ (fun r => r.started_at) _ hall
    unfold closeFound
    rw [hnone]
    dsimp only
    have h0 : db.activities.countP (fun r => decide (r.user_id = u ∧ r.activity_type = ty ∧
        r.activity_name = n ∧ r.ended_at = none)) = 0 :=
      List.countP_eq_zero.mpr (fun a ha => by simpa using hall a ha)
    omega

theorem start_activity_count (db : DB) (u : Nat) (ty : ActivityType) (n : String)
    (now : Nat) (u' : Nat) (ty' : ActivityType) (n' : String) :
    openActivityCount (start_activity db u ty n now) u' ty' n' =
      openActivityCount db u' ty' n' + (if u' = u ∧ ty' = ty ∧ n' = n then 1 else 0) := by
  unfold openActivityCount start_activity
  dsimp only
  rw [List.countP_append, List.countP_singleton]
  congr 1
  by_cases h : u' = u ∧ ty' = ty ∧ n' = n
  · rw [if_pos h]
    simp [h.1, h.2.1, h.2.2]
  · rw [if_neg h]
    rw [if_neg]
    rw [decide_eq_true_eq]
    intro hc
    exact h ⟨hc.1.symm, hc.2.1.symm, hc.2.2.1.symm⟩

theorem foldl_nodup_of_step {γ : Type}
    (f : List (ActivityType × String) → γ → List (ActivityType × String))
    (hf : ∀ s x, f s x = s ∨ ∃ y, y ∉ s ∧ f s x = s ++ [y]) :
    ∀ (l : List γ) (acc : List (ActivityType × String)), acc.Nodup → (l.foldl f acc).Nodup := by
  intro l
  induction l with
  | nil => intro acc h; exact h
  | cons x xs ih =>
    intro acc h
    rw [List.foldl_cons]
    apply ih
    rcases hf acc x with h1 | ⟨y, hy, h1⟩
    · rw [h1]; exact h
    · rw [h1, List.nodup_append]
      refine ⟨h, List.nodup_singleton y, ?_⟩
      intro a ha hay
      rw [List.mem_singleton] at hay
      exact hy (hay ▸ ha)

theorem extract_real_activities_nodup (l : List DAct) : (extract_real_activities l).Nodup := by
  unfold extract_real_activities
  apply foldl_nodup_of_step
  · intro s a
    rcases a with ⟨t0, n0, st, em⟩
    cases t0 with
    | none => left; rfl
    | some t =>
      cases n0 with
      | none => left; rfl
      | some n =>
        dsimp only
        by_cases ht : t ≠ "custom"
        · rw [if_pos ht]
          cases hp : parse_activity_type t with
          | none => left; rfl
          | some ty =>
            dsimp only
            by_cases hm : (ty, n) ∈ s
            · rw [if_pos hm]; left; rfl
            · rw [if_neg hm]; right; exact ⟨(ty, n), hm, rfl⟩
        · rw [if_neg ht]; left; rfl
  · exact List.nodup_nil

theorem ends_fold_mem (u now : Nat) (aa : List (ActivityType × String)) :
    ∀ (ba : List (ActivityType × String)) (db : DB) (r : ActivityRow),
    r ∈ db.activities →
    (∀ p ∈ ba, p ∉ aa →
      ¬(r.user_id = u ∧ r.activity_type = p.1 ∧ r.activity_name = p.2 ∧ r.ended_at = none)) →
    r ∈ (ba.foldl (fun d p => if p ∈ aa then d else end_activity d u p.1 p.2 now)
      db).activities := by
  intro ba
  induction ba with
  | nil => intro db r hr _; exact hr
  | cons p tail ih =>
    intro db r hr hcond
    rw [List.foldl_cons]
    by_cases hp : p ∈ aa
    · rw [if_pos hp]
      exact ih db r hr fun q hq hqa => hcond q (List.mem_cons_of_mem _ hq) hqa
    · rw [if_neg hp]
      apply ih
      · exact end_activity_mem_of_not_matching db u p.1 p.2 now r hr
          (hcond p (List.mem_cons_self _ _) hp)
      · intro q hq hqa
        exact hcond q (List.mem_cons_of_mem _ hq) hqa

theorem ends_fold_count_le (u now : Nat) (aa : List (ActivityType × String)) :
    ∀ (ba : List (ActivityType × String)) (db : DB) (u' : Nat) (ty' : ActivityType)
      (n' : String),
    openActivityCount (ba.foldl (fun d p => if p ∈ aa then d else end_activity d u p.1 p.2 now)
      db) u' ty' n' ≤ openActivityCount db u' ty' n' := by
  intro ba
  induction ba with
  | nil => intro db u' ty' n'; exact Nat.le_refl _
  | cons p tail ih =>
    intro db u' ty' n'
    rw [List.foldl_cons]
    by_cases hp : p ∈ aa
    · rw [if_pos hp]; exact ih db u' ty' n'
    · rw [if_neg hp]
      exact Nat.le_trans (ih _ u' ty' n') (end_activity_count_le db u p.1 p.2 now u' ty' n')

theorem ends_fold_count_eq (u now : Nat) (aa : List (ActivityType × String)) :
    ∀ (ba : List (ActivityType × String)) (db : DB) (u' : Nat) (ty' : ActivityType)
      (n' : String), (u' ≠ u ∨ (ty', n') ∉ ba ∨ (ty', n') ∈ aa) →
    openActivityCount (ba.foldl (fun d p => if p ∈ aa then d else end_activity d u p.1 p.2 now)
      db) u' ty' n' = openActivityCount db u' ty' n' := by
  intro ba
  induction ba with
  | nil => intro db u' ty' n' _; rfl
  | cons p tail ih =>
    intro db u' ty' n' hcase
    rw [List.foldl_cons]
    have htail : u' ≠ u ∨ (ty', n') ∉ tail ∨ (ty', n') ∈ aa := by
      rcases hcase with h | h | h
      · exact Or.inl h
      · exact Or.inr (Or.inl fun hm => h (List.mem_cons_of_mem _ hm))
      · exact Or.inr (Or.inr h)
    by_cases hp : p ∈ aa
    · rw [if_pos hp]; exact ih db u' ty' n' htail
    · rw [if_neg hp]
      rw [ih _ u' ty' n' htail]
      apply end_activity_count_eq
      intro hc
      have hpe : p = (ty', n') := by
        rcases p with ⟨p1, p2⟩
        rw [hc.2.1, hc.2.2]
      rcases hcase with h | h | h
      · exact h hc.1
      · exact h (hpe ▸ List.mem_cons_self _ _)
      · exact hp (hpe ▸ h)

theorem ends_fold_count_sub (u now : Nat) (aa : List (ActivityType × String)) :
    ∀ (ba : List (ActivityType × String)), ba.Nodup → ∀ (db : DB) (ty : ActivityType)
      (n : String), (ty, n) ∈ ba → (ty, n) ∉ aa →
    openActivityCount (ba.foldl (fun d p => if p ∈ aa then d else end_activity d u p.1 p.2 now)
      db) u ty n = openActivityCount db u ty n - 1 := by
  intro ba
  induction ba with
  | nil => intro _ db ty n hm; cases hm
  | cons p tail ih =>
    intro hnd db ty n hm hnaa
    have hpt : p ∉ tail := (List.nodup_cons.mp hnd).1
    have hndt : tail.Nodup := (List.nodup_cons.mp hnd).2
    rw [List.foldl_cons]
    rcases List.mem_cons.mp hm with h1 | h1
    · have hp : ¬ p ∈ aa := by rw [← h1]; exact hnaa
      rw [if_neg hp]
      have hnt : (ty, n) ∉ tail := by rw [h1]; exact hpt
      rw [ends_fold_count_eq u now aa tail _ u ty n (Or.inr (Or.inl hnt))]
      rw [← h1]
      exact end_activity_count_self db u ty n now
    · by_cases hp : p ∈ aa
      · rw [if_pos hp]; exact ih hndt db ty n h1 hnaa
      · rw [if_neg hp]
        rw [ih hndt _ ty n h1 hnaa]
        congr 1
        apply end_activity_count_eq
        intro hc
        apply hpt
        have : p = (ty, n) := by
          rcases p with ⟨p1, p2⟩
          rw [hc.2.1, hc.2.2]
        rw [this]
        exact h1

theorem starts_fold_mem_mono (u now : Nat) (ba : List (ActivityType × String)) :
    ∀ (aa : List (ActivityType × String)) (db : DB) (r : ActivityRow),
    r ∈ db.activities →
    r ∈ (aa.foldl (fun d p => if p ∈ ba then d else start_activity d u p.1 p.2 now)
      db).activities := by
  intro aa
  induction aa with
  | nil => intro db r hr; exact hr
  | cons q tail ih =>
    intro db r hr
    rw [List.foldl_cons]
    by_cases hq : q ∈ ba
    · rw [if_pos hq]; exact ih db r hr
    · rw [if_neg hq]
      apply ih
      unfold start_activity
      exact List.mem_append_left _ hr

theorem starts_fold_mem_new (u now : Nat) (ba : List (ActivityType × String)) :
    ∀ (aa : List (ActivityType × String)) (db : DB) (ty : ActivityType) (n : String),
    (ty, n) ∈ aa → (ty, n) ∉ ba →
    (⟨u, ty, n, now, none⟩ : ActivityRow) ∈
      (aa.foldl (fun d p => if p ∈ ba then d else start_activity d u p.1 p.2 now)
        db).activities := by
  intro aa
  induction aa with
  | nil => intro db ty n hm; cases hm
  | cons q tail ih =>
    intro db ty n hm hnb
    rw [List.foldl_cons]
    rcases List.mem_cons.mp hm with h1 | h1
    · have hq : ¬ q ∈ ba := by rw [← h1]; exact hnb
      rw [if_neg hq]
      apply starts_fold_mem_mono
      unfold start_activity
      apply List.mem_append_right
      rw [← h1]
      exact List.mem_singleton_self _
    · by_cases hq : q ∈ ba
      · rw [if_pos hq]; exact ih db ty n h1 hnb
      · rw [if_neg hq]; exact ih _ ty n h1 hnb

theorem starts_fold_length (u now : Nat) (ba : List (ActivityType × String)) :
    ∀ (aa : List (ActivityType × String)) (db : DB),
    (aa.foldl (fun d p => if p ∈ ba then d else start_activity d u p.1 p.2 now)
      db).activities.length =
      db.activities.length + (aa.filter (fun p => decide (p ∉ ba))).length := by
  intro aa
  induction aa with
  | nil => intro db; rfl
  | cons q tail ih =>
    intro db
    rw [List.foldl_cons]
    by_cases hq : q ∈ ba
    · rw [if_pos hq, List.filter_cons_of_neg (by simpa using hq), ih]
    · rw [if_neg hq, List.filter_cons_of_pos (by simpa using hq), ih]
      unfold start_activity
      dsimp only
      simp only [List.length_append, List.length_cons, List.length_nil]
      omega

theorem ends_fold_length (u now : Nat) (aa : List (ActivityType × String)) :
    ∀ (ba : List (ActivityType × String)) (db : DB),
    (ba.foldl (fun d p => if p ∈ aa then d else end_activity d u p.1 p.2 now)
      db).activities.length = db.activities.length := by
  intro ba
  induction ba with
  | nil => intro db; rfl
  | cons p tail ih =>
    intro db
    rw [List.foldl_cons]
    by_cases hp : p ∈ aa
    · rw [if_pos hp]; exact ih db
    · rw [if_neg hp]
      rw [ih]
      unfold end_activity
      dsimp only
      exact length_closeFound _ _ _ _

theorem starts_fold_count (u now : Nat) (ba : List (ActivityType × String)) :
    ∀ (aa : List (ActivityType × String)), aa.Nodup → ∀ (db : DB) (u' : Nat)
      (ty' : ActivityType) (n' : String),
    openActivityCount (aa.foldl (fun d p => if p ∈ ba then d else start_activity d u p.1 p.2 now)
      db) u' ty' n' =
      openActivityCount db u' ty' n' +
        (if u' = u ∧ (ty', n') ∈ aa ∧ (ty', n') ∉ ba then 1 else 0) := by
  intro aa
  induction aa with
  | nil => intro _ db u' ty' n'; simp
  | cons q tail ih =>
    intro hnd db u' ty' n'
    have hqt : q ∉ tail := (List.nodup_cons.mp hnd).1
    have hndt : tail.Nodup := (List.nodup_cons.mp hnd).2
    rw [List.foldl_cons]
    by_cases hq : q ∈ ba
    · rw [if_pos hq, ih hndt db u' ty' n']
      congr 1
      by_cases h2 : (ty', n') = q
      · have hcons : ¬(u' = u ∧ (ty', n') ∈ q :: tail ∧ (ty', n') ∉ ba) := by
          rw [h2]; intro hc; exact hc.2.2 hq
        have htailc : ¬(u' = u ∧ (ty', n') ∈ tail ∧ (ty', n') ∉ ba) := by
          rw [h2]; intro hc; exact hc.2.2 hq
        rw [if_neg htailc, if_neg hcons]
      · by_cases h1 : u' = u ∧ (ty', n') ∈ tail ∧ (ty', n') ∉ ba
        · rw [if_pos h1, if_pos ⟨h1.1, List.mem_cons_of_mem _ h1.2.1, h1.2.2⟩]
        · rw [if_neg h1, if_neg]
          intro hc
          rcases List.mem_cons.mp hc.2.1 with h3 | h3
          · exact h2 h3
          · exact h1 ⟨hc.1, h3, hc.2.2⟩
    · rw [if_neg hq, ih hndt _ u' ty' n', start_activity_count db u q.1 q.2 now u' ty' n']
      have hiff : ((if u' = u ∧ ty' = q.1 ∧ n' = q.2 then 1 else 0) : Nat) +
          (if u' = u ∧ (ty', n') ∈ tail ∧ (ty', n') ∉ ba then 1 else 0) =
          (if u' = u ∧ (ty', n') ∈ q :: tail ∧ (ty', n') ∉ ba then 1 else 0) := by
        by_cases h1 : u' = u
        · by_cases h2 : (ty', n') = q
          · have hnt : (ty', n') ∉ tail := by rw [h2]; exact hqt
            rw [if_pos ⟨h1, congrArg Prod.fst h2, congrArg Prod.snd h2⟩,
                if_neg (fun hc => hnt hc.2.1),
                if_pos ⟨h1, List.mem_cons.mpr (Or.inl h2), by rw [h2]; exact hq⟩]
          · have hA : ¬(u' = u ∧ ty' = q.1 ∧ n' = q.2) := by
              intro hc
              apply h2
              rcases q with ⟨q1, q2⟩
              rw [hc.2.1, hc.2.2]
            rw [if_neg hA]
            by_cases h3 : (ty', n') ∈ tail ∧ (ty', n') ∉ ba
            · rw [if_pos ⟨h1, h3.1, h3.2⟩, if_pos ⟨h1, List.mem_cons_of_mem _ h3.1, h3.2⟩]
            · rw [if_neg (fun hc => h3 ⟨hc.2.1, hc.2.2⟩), if_neg]
              intro hc
              rcases List.mem_cons.mp hc.2.1 with h4 | h4
              · exact h2 h4
              · exact h3 ⟨h4, hc.2.2⟩
        · rw [if_neg (fun hc => h1 hc.1), if_neg (fun hc => h1 hc.1),
              if_neg (fun hc => h1 hc.1)]
      omega

theorem ends_fold_closes_max (u now : Nat) (aa : List (ActivityType × String)) :
    ∀ (ba : List (ActivityType × String)), ba.Nodup → ∀ (db : DB) (ty : ActivityType)
      (n : String), (ty, n) ∈ ba → (ty, n) ∉ aa →
    (∃ x ∈ db.activities, x.user_id = u ∧ x.activity_type = ty ∧ x.activity_name = n ∧
      x.ended_at = none) →
    ∃ r ∈ db.activities, (r.user_id = u ∧ r.activity_type = ty ∧ r.activity_name = n ∧
        r.ended_at = none) ∧
      (∀ x ∈ db.activities, x.user_id = u → x.activity_type = ty → x.activity_name = n →
        x.ended_at = none → x.started_at ≤ r.started_at) ∧
      ({ r with ended_at := some now } : ActivityRow) ∈
        (ba.foldl (fun d p => if p ∈ aa then d else end_activity d u p.1 p.2 now)
          db).activities := by
  intro ba
  induction ba with
  | nil => intro _ db ty n hm; cases hm
  | cons p tail ih =>
    intro hnd db ty n hm hnaa hex
    have hpt : p ∉ tail := (List.nodup_cons.mp hnd).1
    have hndt : tail.Nodup := (List.nodup_cons.mp hnd).2
    rw [List.foldl_cons]
    rcases List.mem_cons.mp hm with h1 | h1
    · subst h1
      rw [if_neg hnaa]
      have hexB : ∃ x ∈ db.activities, (fun r => decide (r.user_id = u ∧
          r.activity_type = ty ∧ r.activity_name = n ∧ r.ended_at = none)) x = true := by
        obtain ⟨x, hx, hp1⟩ := hex
        exact ⟨x, hx, by simpa using hp1⟩
      have hsome := @findLatest_isSome _ _ (fun r => r.started_at) _ hexB
      cases hf : findLatest (fun r => decide (r.user_id = u ∧ r.activity_type = ty ∧
          r.activity_name = n ∧ r.ended_at = none)) (fun r => r.started_at)
          db.activities with
      | none => rw [hf] at hsome; cases hsome
      | some old =>
        refine ⟨old, findLatest_mem hf, by simpa using findLatest_prop hf, ?_, ?_⟩
        · intro x hx h1 h2 h3 h4
          exact findLatest_max hf x hx (by simp [h1, h2, h3, h4])
        · apply ends_fold_mem
          · unfold end_activity
            dsimp only
            unfold closeFound
            rw [hf]
            exact mem_replaceFirst_self _ (findLatest_mem hf)
          · intro q hq hqa
            intro hc
            have := hc.2.2.2
            simp at this
    · by_cases hp : p ∈ aa
      · rw [if_pos hp]
        exact ih hndt db ty n h1 hnaa hex
      · rw [if_neg hp]
        have hpne : p ≠ (ty, n) := fun h => hpt (h ▸ h1)
        have htransfer : ∀ x ∈ db.activities, x.user_id = u → x.activity_type = ty →
            x.activity_name = n → x.ended_at = none →
            x ∈ (end_activity db u p.1 p.2 now).activities := by
          intro x hx hx1 hx2 hx3 hx4
          apply end_activity_mem_of_not_matching db u p.1 p.2 now x hx
          intro hc
          apply hpne
          rcases p with ⟨p1, p2⟩
          dsimp only at hc
          rw [← hc.2.1, ← hc.2.2.1, hx2, hx3]
        have hex1 : ∃ x ∈ (end_activity db u p.1 p.2 now).activities, x.user_id = u ∧
            x.activity_type = ty ∧ x.activity_name = n ∧ x.ended_at = none := by
          obtain ⟨x, hx, hx1, hx2, hx3, hx4⟩ := hex
          exact ⟨x, htransfer x hx hx1 hx2 hx3 hx4, hx1, hx2, hx3, hx4⟩
        obtain ⟨r, hrmem, hrkey, hrmax, hrfinal⟩ := ih hndt _ ty n h1 hnaa hex1
        refine ⟨r, ?_, hrkey, ?_, hrfinal⟩
        · unfold end_activity at hrmem
          dsimp only at hrmem
          rcases mem_of_mem_closeFound hrmem with h2 | ⟨a, _, h2⟩
          · exact h2
          · exfalso
            have := hrkey.2.2.2
            rw [h2] at this
            simp at this
        · intro x hx hx1 hx2 hx3 hx4
          exact hrmax x (htransfer x hx hx1 hx2 hx3 hx4) hx1 hx2 hx3 hx4

theorem ends_fold_mem_of_competitor (u now : Nat) (aa : List (ActivityType × String)) :
    ∀ (ba : List (ActivityType × String)), ba.Nodup → ∀ (db : DB) (r r2 : ActivityRow)
      (ty : ActivityType) (n : String),
    r ∈ db.activities → r2 ∈ db.activities →
    (r.user_id = u ∧ r.activity_type = ty ∧ r.activity_name = n ∧ r.ended_at = none) →
    (r2.user_id = u ∧ r2.activity_type = ty ∧ r2.activity_name = n ∧ r2.ended_at = none) →
    r.started_at < r2.started_at →
    r ∈ (ba.foldl (fun d p => if p ∈ aa then d else end_activity d u p.1 p.2 now)
      db).activities := by
  intro ba
  induction ba with
  | nil => intro _ db r r2 ty n hr _ _ _ _; exact hr
  | cons p tail ih =>
    intro hnd db r r2 ty n hr hr2 hk hk2 hlt
    have hpt : p ∉ tail := (List.nodup_cons.mp hnd).1
    have hndt : tail.Nodup := (List.nodup_cons.mp hnd).2
    rw [List.foldl_cons]
    by_cases hp : p ∈ aa
    · rw [if_pos hp]
      exact ih hndt db r r2 ty n hr hr2 hk hk2 hlt
    · rw [if_neg hp]
      by_cases hpe : p = (ty, n)
      · have hr1 : r ∈ (end_activity db u p.1 p.2 now).activities := by
          unfold end_activity
          dsimp only
          apply mem_closeFound_of_lt_max hr
          refine ⟨r2, hr2, ?_, hlt⟩
          rw [hpe]
          simp [hk2.1, hk2.2.1, hk2.2.2.1, hk2.2.2.2]
        apply ends_fold_mem u now aa tail _ r hr1
        intro q hq hqa hc
        apply hpt
        rw [hpe]
        have hq2 : q = (ty, n) := by
          rcases q with ⟨q1, q2⟩
          dsimp only at hc
          rw [← hc.2.1, ← hc.2.2.1, hk.2.1, hk.2.2.1]
        rw [← hq2]
        exact hq
      · have hstep : ∀ x : ActivityRow, x ∈ db.activities → x.user_id = u →
            x.activity_type = ty → x.activity_name = n → x.ended_at = none →
            x ∈ (end_activity db u p.1 p.2 now).activities := by
          intro x hx hx1 hx2 hx3 hx4
          apply end_activity_mem_of_not_matching db u p.1 p.2 now x hx
          intro hc
          apply hpe
          rcases p with ⟨p1, p2⟩
          dsimp only at hc
          rw [← hc.2.1, ← hc.2.2.1, hx2, hx3]
        exact ih hndt _ r r2 ty n
          (hstep r hr hk.1 hk.2.1 hk.2.2.1 hk.2.2.2)
          (hstep r2 hr2 hk2.1 hk2.2.1 hk2.2.2.1 hk2.2.2.2) hk hk2 hlt

/-- C7: for an activity-change event, pairs present in both the before
and after extracted sets (custom statuses excluded by extraction) have
all their rows left unchanged, as do all rows of other subjects; each
pair present before but absent after has exactly its most recently opened
open row closed at the event time (strictly older open rows of the same
pair survive untouched); each pair absent before but present after gets
exactly one new open row; counts and lengths change accordingly; and
starting, stopping, then restarting and stopping an identically-named
activity produces two distinct closed rows rather than one merged row. -/
theorem c7_activity_change_set_difference (db : DB) (u : Nat) (bActs aActs : List DAct)
    (now : Nat) :
    (∀ r ∈ db.activities,
      (r.user_id ≠ u ∨ ((r.activity_type, r.activity_name) ∈ extract_real_activities bActs ↔
        (r.activity_type, r.activity_name) ∈ extract_real_activities aActs)) →
      r ∈ (handle_activity_change db u bActs aActs now).activities) ∧
    (∀ (ty : ActivityType) (n : String), (ty, n) ∈ extract_real_activities bActs →
      (ty, n) ∉ extract_real_activities aActs →
      openActivityCount (handle_activity_change db u bActs aActs now) u ty n =
        openActivityCount db u ty n - 1) ∧
    (∀ r ∈ db.activities, ∀ r2 ∈ db.activities,
      r.user_id = u → r2.user_id = u → r2.activity_type = r.activity_type →
      r2.activity_name = r.activity_name → r.ended_at = none → r2.ended_at = none →
      r.started_at < r2.started_at →
      r ∈ (handle_activity_change db u bActs aActs now).activities) ∧
    (∀ (ty : ActivityType) (n : String), (ty, n) ∈ extract_real_activities bActs →
      (ty, n) ∉ extract_real_activities aActs →
      (∃ x ∈ db.activities, x.user_id = u ∧ x.activity_type = ty ∧ x.activity_name = n ∧
        x.ended_at = none) →
      ∃ r ∈ db.activities, (r.user_id = u ∧ r.activity_type = ty ∧ r.activity_name = n ∧
          r.ended_at = none) ∧
        (∀ x ∈ db.activities, x.user_id = u → x.activity_type = ty → x.activity_name = n →
          x.ended_at = none → x.started_at ≤ r.started_at) ∧
        ({ r with ended_at := some now } : ActivityRow) ∈
          (handle_activity_change db u bActs aActs now).activities) ∧
    (∀ (ty : ActivityType) (n : String), (ty, n) ∈ extract_real_activities aActs →
      (ty, n) ∉ extract_real_activities bActs →
      openActivityCount (handle_activity_change db u bActs aActs now) u ty n =
        openActivityCount db u ty n + 1 ∧
      (⟨u, ty, n, now, none⟩ : ActivityRow) ∈
        (handle_activity_change db u bActs aActs now).activities) ∧
    (∀ (u' : Nat) (ty : ActivityType) (n : String), u' ≠ u →
      openActivityCount (handle_activity_change db u bActs aActs now) u' ty n =
        openActivityCount db u' ty n) ∧
    (∀ (ty : ActivityType) (n : String),
      ((ty, n) ∈ extract_real_activities bActs ↔ (ty, n) ∈ extract_real_activities aActs) →
      openActivityCount (handle_activity_change db u bActs aActs now) u ty n =
        openActivityCount db u ty n) ∧
    ((handle_activity_change db u bActs aActs now).activities.length =
      db.activities.length + ((extract_real_activities aActs).filter
        (fun p => decide (p ∉ extract_real_activities bActs))).length) ∧
    ((handle_activity_change (handle_activity_change (handle_activity_change
        (handle_activity_change emptyDB 1 [] [⟨some "playing", some "X", none, none⟩] 1)
        1 [⟨some "playing", some "X", none, none⟩] [] 2)
        1 [] [⟨some "playing", some "X", none, none⟩] 3)
        1 [⟨some "playing", some "X", none, none⟩] [] 4).activities =
      [⟨1, ActivityType.playing, "X", 1, some 2⟩,
       ⟨1, ActivityType.playing, "X", 3, some 4⟩]) := by
  have hba := extract_real_activities_nodup bActs
  have haa := extract_real_activities_nodup aActs
  have hdb : handle_activity_change db u bActs aActs now =
      (extract_real_activities aActs).foldl
        (fun d p => if p ∈ extract_real_activities bActs then d
          else start_activity d u p.1 p.2 now)
        ((extract_real_activities bActs).foldl
          (fun d p => if p ∈ extract_real_activities aActs then d
            else end_activity d u p.1 p.2 now) db) := rfl
  refine ⟨?_, ?_, ?_, ?_, ?_, ?_, ?_, ?_, by decide⟩
  · intro r hr hcond
    rw [hdb]
    apply starts_fold_mem_mono
    apply ends_fold_mem
    · exact hr
    · intro p hp hpa hc
      rcases hcond with h | h
      · exact h hc.1
      · have hpe : (r.activity_type, r.activity_name) = p := by
          rcases p with ⟨p1, p2⟩
          dsimp only at hc
          rw [hc.2.1, hc.2.2.1]
        rw [← hpe] at hp hpa
        exact hpa (h.mp hp)
  · intro ty n hb ha
    rw [hdb]
    rw [starts_fold_count u now (extract_real_activities bActs)
      (extract_real_activities aActs) haa _ u ty n]
    rw [if_neg (fun hc => hc.2.2 hb)]
    rw [ends_fold_count_sub u now (extract_real_activities aActs)
      (extract_real_activities bActs) hba db ty n hb ha]
    omega
  · intro r hr r2 hr2 h1 h2 h3 h4 h5 h6 h7
    rw [hdb]
    apply starts_fold_mem_mono
    exact ends_fold_mem_of_competitor u now (extract_real_activities aActs)
      (extract_real_activities bActs) hba db r r2 r.activity_type r.activity_name hr hr2
      ⟨h1, rfl, rfl, h5⟩ ⟨h2, h3, h4, h6⟩ h7
  · intro ty n hb ha hex
    obtain ⟨r, hrmem, hrkey, hrmax, hrfinal⟩ := ends_fold_closes_max u now
      (extract_real_activities aActs) (extract_real_activities bActs) hba db ty n hb ha hex
    refine ⟨r, hrmem, hrkey, hrmax, ?_⟩
    rw [hdb]
    exact starts_fold_mem_mono u now _ _ _ _ hrfinal
  · intro ty n ha hb
    constructor
    · rw [hdb]
      rw [starts_fold_count u now (extract_real_activities bActs)
        (extract_real_activities aActs) haa _ u ty n]
      rw [if_pos ⟨rfl, ha, hb⟩]
      rw [ends_fold_count_eq u now (extract_real_activities aActs)
        (extract_real_activities bActs) db u ty n (Or.inr (Or.inl hb))]
    · rw [hdb]
      exact starts_fold_mem_new u now _ _ _ ty n ha hb
  · intro u' ty n hu
    rw [hdb]
    rw [starts_fold_count u now (extract_real_activities bActs)
      (extract_real_activities aActs) haa _ u' ty n]
    rw [if_neg (fun hc => hu hc.1)]
    rw [ends_fold_count_eq u now (extract_real_activities aActs)
      (extract_real_activities bActs) db u' ty n (Or.inl hu)]
    omega
  · intro ty n hiff
    rw [hdb]
    rw [starts_fold_count u now (extract_real_activities bActs)
      (extract_real_activities aActs) haa _ u ty n]
    rw [if_neg (fun hc => hc.2.2 (hiff.mpr hc.2.1))]
    by_cases hb : (ty, n) ∈ extract_real_activities bActs
    · rw [ends_fold_count_eq u now (extract_real_activities aActs)
        (extract_real_activities bActs) db u ty n (Or.inr (Or.inr (hiff.mp hb)))]
      omega
    · rw [ends_fold_count_eq u now (extract_real_activities aActs)
        (extract_real_activities bActs) db u ty n (Or.inr (Or.inl hb))]
      omega
  · rw [hdb]
    rw [starts_fold_length u now (extract_real_activities bActs)
      (extract_real_activities aActs) _]
    rw [ends_fold_length u now (extract_real_activities aActs)
      (extract_real_activities bActs) db]

/-- Witness for C7: a concrete activity change stopping one activity and
starting another. -/
theorem c7_witness :
    openActivityCount (handle_activity_change
      { emptyDB with activities := [⟨1, ActivityType.playing, "X", 5, none⟩] }
      1 [⟨some "playing", some "X", none, none⟩] [⟨some "watching", some "Y", none, none⟩] 9)
      1 ActivityType.playing "X" =
    openActivityCount
      { emptyDB with activities := [⟨1, ActivityType.playing, "X", 5, none⟩] }
      1 ActivityType.playing "X" - 1 :=
  (c7_activity_change_set_difference
    { emptyDB with activities := [⟨1, ActivityType.playing, "X", 5, none⟩] }
    1 [⟨some "playing", some "X", none, none⟩] [⟨some "watching", some "Y", none, none⟩]
    9).2.1 ActivityType.playing "X" (by decide) (by decide)

theorem foldl_activities_only {γ : Type} (F : DB → γ → DB)
    (hF : ∀ d x, ∃ acts, F d x = { d with activities := acts }) :
    ∀ (l : List γ) (db : DB), ∃ acts, l.foldl F db = { db with activities := acts } := by
  intro l
  induction l with
  | nil => intro db; exact ⟨db.activities, rfl⟩
  | cons x xs ih =>
    intro db
    rw [List.foldl_cons]
    obtain ⟨a1, h1⟩ := hF db x
    obtain ⟨a2, h2⟩ := ih (F db x)
    exact ⟨a2, by rw [h2, h1]⟩

theorem hac_activities_only (db : DB) (u : Nat) (b a : List DAct) (now : Nat) :
    ∃ acts, handle_activity_change db u b a now = { db with activities := acts } := by
  unfold handle_activity_change
  dsimp only
  obtain ⟨a1, h1⟩ := foldl_activities_only
    (fun d p => if p ∈ extract_real_activities a then d else end_activity d u p.1 p.2 now)
    (fun d p => by
      dsimp only
      by_cases hp : p ∈ extract_real_activities a
      · rw [if_pos hp]; exact ⟨d.activities, rfl⟩
      · rw [if_neg hp]; exact ⟨_, rfl⟩)
    (extract_real_activities b) db
  obtain ⟨a2, h2⟩ := foldl_activities_only
    (fun d p => if p ∈ extract_real_activities b then d else start_activity d u p.1 p.2 now)
    (fun d p => by
      dsimp only
      by_cases hp : p ∈ extract_real_activities b
      · rw [if_pos hp]; exact ⟨d.activities, rfl⟩
      · rw [if_neg hp]; exact ⟨_, rfl⟩)
    (extract_real_activities a) _
  rw [h2, h1]
  exact ⟨a2, rfl⟩

theorem hcsc_customs_only (db : DB) (u : Nat) (b a : List DAct) (now : Nat) :
    ∃ c, handle_custom_status_change db u b a now = { db with customs := c } := by
  unfold handle_custom_status_change
  dsimp only
  split
  · exact ⟨db.customs, rfl⟩
  · split
    · split
      · exact ⟨db.customs, rfl⟩
      · exact ⟨_, rfl⟩
    · exact ⟨db.customs, rfl⟩

theorem cnhe_nameCount_self (db : DB) (userId : Nat) (un dn : String) (gn : Option String)
    (now : Nat) :
    openNameCount (create_name_history_entry db userId un dn gn now) userId = 1 := by
  unfold openNameCount create_name_history_entry
  dsimp only
  rw [List.countP_append]
  have h1 : ((db.names.map fun e =>
      if e.user_id = userId ∧ e.effective_until = none
      then { e with effective_until := some now } else e)).countP
        (fun e => decide (e.user_id = userId ∧ e.effective_until = none)) = 0 := by
    apply countP_map_zero
    intro e
    by_cases he : e.user_id = userId ∧ e.effective_until = none
    · rw [if_pos he]; simp
    · rw [if_neg he]; simpa using he
  rw [h1]
  simp

theorem cnhe_nameCount_other (db : DB) (userId : Nat) (un dn : String) (gn : Option String)
    (now : Nat) (v : Nat) (hv : v ≠ userId) :
    openNameCount (create_name_history_entry db userId un dn gn now) v =
      openNameCount db v := by
  unfold openNameCount create_name_history_entry
  dsimp only
  rw [List.countP_append]
  have h1 : ((db.names.map fun e =>
      if e.user_id = userId ∧ e.effective_until = none
      then { e with effective_until := some now } else e)).countP
        (fun e => decide (e.user_id = v ∧ e.effective_until = none)) = db.names.countP
        (fun e => decide (e.user_id = v ∧ e.effective_until = none)) := by
    apply countP_map_eq_of
    intro e
    by_cases he : e.user_id = userId ∧ e.effective_until = none
    · rw [if_pos he]
      simp [he.1, Ne.symm hv]
    · rw [if_neg he]
  rw [h1]
  simp [Ne.symm hv]

theorem cnhe_inv (db : DB) (userId : Nat) (un dn : String) (gn : Option String) (now : Nat)
    (h : StoreInv db) : StoreInv (create_name_history_entry db userId un dn gn now) := by
  obtain ⟨⟨hp, hs, hv, ha, hn⟩, hb1, hb2⟩ := h
  refine ⟨⟨hp, hs, hv, ha, ?_⟩, hb1, hb2⟩
  intro v
  by_cases hveq : v = userId
  · rw [hveq, cnhe_nameCount_self]
  · rw [cnhe_nameCount_other db userId un dn gn now v hveq]
    exact hn v

theorem gocu_inv (db : DB) (m : Member) (now : Nat) (h : StoreInv db) :
    StoreInv (get_or_create_user db m now) := by
  unfold get_or_create_user
  split
  · exact h
  · apply cnhe_inv
    obtain ⟨⟨hp, hs, hv, ha, hn⟩, hb1, hb2⟩ := h
    exact ⟨⟨hp, hs, hv, ha, hn⟩, hb1, hb2⟩

theorem presCount_hsc_self (db : DB) (u : Nat) (raw : String) (now : Nat) :
    openPresenceCount (handle_status_change db u raw now) u = 1 := by
  unfold openPresenceCount handle_status_change
  dsimp only
  rw [List.countP_append]
  have h1 : ∀ (l : List PresenceRow), (l.map (fun r =>
      if r.user_id = u ∧ r.changed_at = none then { r with changed_at := some now }
      else r)).countP (fun r => decide (r.user_id = u ∧ r.changed_at = none)) = 0 := by
    intro l
    apply countP_map_zero
    intro r
    by_cases hr : r.user_id = u ∧ r.changed_at = none
    · rw [if_pos hr]; simp
    · rw [if_neg hr]; simpa using hr
  rw [h1]
  simp

theorem presCount_hsc_other (db : DB) (u : Nat) (raw : String) (now : Nat) (v : Nat)
    (hv : v ≠ u) :
    openPresenceCount (handle_status_change db u raw now) v = openPresenceCount db v := by
  unfold openPresenceCount handle_status_change
  dsimp only
  rw [List.countP_append]
  have h1 : ∀ (l : List PresenceRow), (l.map (fun r =>
      if r.user_id = u ∧ r.changed_at = none then { r with changed_at := some now }
      else r)).countP (fun r => decide (r.user_id = v ∧ r.changed_at = none)) =
        l.countP (fun r => decide (r.user_id = v ∧ r.changed_at = none)) := by
    intro l
    apply countP_map_eq_of
    intro r
    by_cases hr : r.user_id = u ∧ r.changed_at = none
    · rw [if_pos hr]
      simp [hr.1, Ne.symm hv]
    · rw [if_neg hr]
  rw [h1]
  have h2 : (closeFound (fun r => decide (r.user_id = u ∧ r.changed_at = none))
      (fun r => r.set_at) (fun r => { r with changed_at := some now })
      db.presence).countP (fun r => decide (r.user_id = v ∧ r.changed_at = none)) =
      db.presence.countP (fun r => decide (r.user_id = v ∧ r.changed_at = none)) := by
    apply countP_closeFound_eq
    intro r hr
    rw [decide_eq_true_eq] at hr
    simp [hr.1, Ne.symm hv]
  rw [h2]
  simp [Ne.symm hv]

theorem hsc_inv (db : DB) (u : Nat) (raw : String) (now : Nat) (h : StoreInv db) :
    StoreInv (handle_status_change db u raw now) := by
  obtain ⟨⟨hp, hs, hv, ha, hn⟩, hb1, hb2⟩ := h
  refine ⟨⟨?_, hs, hv, ha, hn⟩, hb1, hb2⟩
  intro v
  by_cases hveq : v = u
  · rw [hveq, presCount_hsc_self]
  · rw [presCount_hsc_other db u raw now v hveq]
    exact hp v

theorem hac_counts_le_one (db : DB) (u : Nat) (b a : List DAct) (now : Nat)
    (hInv : ∀ (u' : Nat) (ty : ActivityType) (n : String),
      openActivityCount db u' ty n ≤ 1)
    (hval : ∀ r ∈ db.activities, r.user_id = u → r.ended_at = none →
      (r.activity_type, r.activity_name) ∈ extract_real_activities b) :
    ∀ (u' : Nat) (ty : ActivityType) (n : String),
      openActivityCount (handle_activity_change db u b a now) u' ty n ≤ 1 := by
  have hba := extract_real_activities_nodup b
  have haa := extract_real_activities_nodup a
  have hdb : handle_activity_change db u b a now =
      (extract_real_activities a).foldl
        (fun d p => if p ∈ extract_real_activities b then d
          else start_activity d u p.1 p.2 now)
        ((extract_real_activities b).foldl
          (fun d p => if p ∈ extract_real_activities a then d
            else end_activity d u p.1 p.2 now) db) := rfl
  intro u' ty n
  rw [hdb]
  rw [starts_fold_count u now (extract_real_activities b) (extract_real_activities a)
    haa _ u' ty n]
  by_cases hu : u' = u
  · subst hu
    by_cases hina : (ty, n) ∈ extract_real_activities a
    · by_cases hinb : (ty, n) ∈ extract_real_activities b
      · rw [if_neg (fun hc => hc.2.2 hinb)]
        rw [ends_fold_count_eq u' now (extract_real_activities a)
          (extract_real_activities b) db u' ty n (Or.inr (Or.inr hina))]
        have := hInv u' ty n
        omega
      · rw [if_pos ⟨rfl, hina, hinb⟩]
        rw [ends_fold_count_eq u' now (extract_real_activities a)
          (extract_real_activities b) db u' ty n (Or.inr (Or.inl hinb))]
        have h0 : openActivityCount db u' ty n = 0 := by
          by_contra hne
          have hpos : 0 < openActivityCount db u' ty n := Nat.pos_of_ne_zero hne
          unfold openActivityCount at hpos
          rw [List.countP_pos_iff] at hpos
          obtain ⟨r, hr, hpr⟩ := hpos
          rw [decide_eq_true_eq] at hpr
          have hm := hval r hr hpr.1 hpr.2.2.2
          rw [hpr.2.1, hpr.2.2.1] at hm
          exact hinb hm
        rw [h0]
    · rw [if_neg (fun hc => hina hc.2.1)]
      by_cases hinb : (ty, n) ∈ extract_real_activities b
      · rw [ends_fold_count_sub u' now (extract_real_activities a)
          (extract_real_activities b) hba db ty n hinb hina]
        have := hInv u' ty n
        omega
      · rw [ends_fold_count_eq u' now (extract_real_activities a)
          (extract_real_activities b) db u' ty n (Or.inr (Or.inl hinb))]
        have := hInv u' ty n
        omega
  · rw [if_neg (fun hc => hu hc.1)]
    rw [ends_fold_count_eq u now (extract_real_activities a)
      (extract_real_activities b) db u' ty n (Or.inl hu)]
    have := hInv u' ty n
    omega

theorem hac_inv (db : DB) (u : Nat) (b a : List DAct) (now : Nat) (h : StoreInv db)
    (hval : ∀ r ∈ db.activities, r.user_id = u → r.ended_at = none →
      (r.activity_type, r.activity_name) ∈ extract_real_activities b) :
    StoreInv (handle_activity_change db u b a now) := by
  obtain ⟨acts, hacts⟩ := hac_activities_only db u b a now
  obtain ⟨⟨hp, hs, hv, ha2, hn⟩, hb1, hb2⟩ := h
  refine ⟨⟨?_, ?_, ?_, hac_counts_le_one db u b a now ha2 hval, ?_⟩, ?_, ?_⟩
  · intro v; rw [hacts]; exact hp v
  · intro v; rw [hacts]; exact hs v
  · intro sid t; rw [hacts]; exact hv sid t
  · intro v; rw [hacts]; exact hn v
  · rw [hacts]; exact hb1
  · rw [hacts]; exact hb2

theorem hcsc_inv (db : DB) (u : Nat) (b a : List DAct) (now : Nat) (h : StoreInv db) :
    StoreInv (handle_custom_status_change db u b a now) := by
  obtain ⟨c, hc⟩ := hcsc_customs_only db u b a now
  obtain ⟨⟨hp, hs, hv, ha2, hn⟩, hb1, hb2⟩ := h
  refine ⟨⟨?_, ?_, ?_, ?_, ?_⟩, ?_, ?_⟩
  · intro v; rw [hc]; exact hp v
  · intro v; rw [hc]; exact hs v
  · intro sid t; rw [hc]; exact hv sid t
  · intro v ty n; rw [hc]; exact ha2 v ty n
  · intro v; rw [hc]; exact hn v
  · rw [hc]; exact hb1
  · rw [hc]; exact hb2

theorem hnc_inv (db : DB) (m : Member) (now : Nat) (h : StoreInv db) :
    StoreInv (handle_name_change db m now) := by
  unfold handle_name_change
  exact cnhe_inv _ _ _ _ _ _ (gocu_inv db m now h)

theorem omu_inv (db : DB) (b a : Member) (now : Nat) (h : StoreInv db) :
    StoreInv (on_member_update db b a now) := by
  unfold on_member_update
  split
  · exact hnc_inv db a now h
  · exact h

theorem countP_track_le (l : List (Bool × VoiceStateType)) (sid now : Nat) (t : VoiceStateType) :
    ((l.filter (fun p => p.1)).map
      (fun p => (⟨sid, p.2, now, none⟩ : VoiceStateRow))).countP
      (fun r => decide (r.session_id = sid ∧ r.state_type = t ∧ r.ended_at = none))
      ≤ (l.map (fun p => p.2)).countP (fun ty => decide (ty = t)) := by
  induction l with
  | nil => simp
  | cons p tl ih =>
    by_cases hp : p.1 = true
    · have hpf : ((fun (q : Bool × VoiceStateType) => q.1) p) = true := hp
      rw [List.filter_cons_of_pos hpf, List.map_cons, List.map_cons,
        List.countP_cons, List.countP_cons]
      by_cases ht : p.2 = t
      · have h1 : (decide (sid = sid ∧ p.2 = t ∧ (none : Option Nat) = none)) = true := by
          simp [ht]
        have h2 : (decide (p.2 = t)) = true := by
          simp [ht]
        rw [if_pos h1, if_pos h2]
        exact Nat.add_le_add_right ih 1
      · have h1 : ¬ ((decide (sid = sid ∧ p.2 = t ∧ (none : Option Nat) = none)) = true) := by
          simp [ht]
        have h2 : ¬ ((decide (p.2 = t)) = true) := by
          simp [ht]
        rw [if_neg h1, if_neg h2]
        exact Nat.add_le_add_right ih 0
    · have hpf : ¬ (((fun (q : Bool × VoiceStateType) => q.1) p) = true) := hp
      rw [List.filter_cons_of_neg hpf, List.map_cons, List.countP_cons]
      exact Nat.le_trans ih (Nat.le_add_right _ _)

theorem track_count_le_one (vs : VState) (sid now : Nat) (t : VoiceStateType) :
    (((states_to_track vs).filter (fun p => p.1)).map
      (fun p => (⟨sid, p.2, now, none⟩ : VoiceStateRow))).countP
      (fun r => decide (r.session_id = sid ∧ r.state_type = t ∧ r.ended_at = none)) ≤ 1 := by
  refine Nat.le_trans (countP_track_le (states_to_track vs) sid now t) ?_
  have hmap : (states_to_track vs).map (fun p => p.2) =
      [VoiceStateType.deaf, VoiceStateType.mute, VoiceStateType.self_deaf,
       VoiceStateType.self_mute, VoiceStateType.self_stream, VoiceStateType.self_video] := rfl
  rw [hmap]
  cases t <;> decide

theorem track_count_other (vs : VState) (sid now : Nat) (sid' : Nat) (t : VoiceStateType)
    (hne : sid' ≠ sid) :
    (((states_to_track vs).filter (fun p => p.1)).map
      (fun p => (⟨sid, p.2, now, none⟩ : VoiceStateRow))).countP
      (fun r => decide (r.session_id = sid' ∧ r.state_type = t ∧ r.ended_at = none)) = 0 := by
  apply List.countP_eq_zero.mpr
  intro r hr
  obtain ⟨p, _, rfl⟩ := List.mem_map.mp hr
  simp [Ne.symm hne]

theorem track_session_ids (vs : VState) (sid now : Nat) :
    ∀ r ∈ ((states_to_track vs).filter (fun p => p.1)).map
      (fun p => (⟨sid, p.2, now, none⟩ : VoiceStateRow)), r.session_id = sid := by
  intro r hr
  obtain ⟨p, _, rfl⟩ := List.mem_map.mp hr
  rfl

theorem leave_inv (db : DB) (u c now : Nat) (h : StoreInv db) :
    StoreInv (handle_voice_leave db u c now) := by
  unfold handle_voice_leave
  cases hf : find_open_session db u c with
  | none => exact h
  | some s =>
    dsimp only
    obtain ⟨⟨hp, hs, hv, ha, hn⟩, hb1, hb2⟩ := h
    have hsmem := findLatest_mem hf
    refine ⟨⟨hp, ?_, ?_, ha, hn⟩, ?_, ?_⟩
    · intro v
      unfold openSessionCount end_active_voice_states
      dsimp only
      refine Nat.le_trans (countP_replaceFirst_le _ s { s with left_at := some now }
        db.sessions ?_) (hs v)
      intro hnew
      simp at hnew
    · intro sid t
      unfold openVoiceStateCount end_active_voice_states
      dsimp only
      refine Nat.le_trans (countP_map_le_of _ _ db.voiceStates ?_) (hv sid t)
      intro r hr
      by_cases hc : r.session_id = s.id ∧ r.ended_at = none
      · rw [if_pos hc] at hr
        simp at hr
      · rw [if_neg hc] at hr
        exact hr
    · intro x hx
      unfold end_active_voice_states at hx
      dsimp only at hx
      rcases mem_of_mem_replaceFirst hx with h1 | h1
      · exact hb1 x h1
      · rw [h1]
        exact hb1 s hsmem
    · intro r hr
      unfold end_active_voice_states at hr
      dsimp only at hr
      obtain ⟨a, hamem, rfl⟩ := List.mem_map.mp hr
      by_cases hc : a.session_id = s.id ∧ a.ended_at = none
      · rw [if_pos hc]
        exact hb2 a hamem
      · rw [if_neg hc]
        exact hb2 a hamem

theorem join_inv (db : DB) (u c now : Nat) (vs : VState) (h : StoreInv db)
    (hval : openSessionCount db u = 0) : StoreInv (handle_voice_join db u c vs now) := by
  unfold handle_voice_join track_voice_states
  dsimp only
  obtain ⟨⟨hp, hs, hv, ha, hn⟩, hb1, hb2⟩ := h
  refine ⟨⟨hp, ?_, ?_, ha, hn⟩, ?_, ?_⟩
  · intro v
    show (db.sessions ++
        [(⟨db.nextSessionId, u, c, now, none⟩ : SessionRow)]).countP
      (fun x => decide (x.user_id = v ∧ x.left_at = none)) ≤ 1
    rw [List.countP_append, List.countP_singleton]
    by_cases hveq : v = u
    · have h0 : db.sessions.countP (fun x => decide (x.user_id = v ∧ x.left_at = none)) = 0 := by
        rw [hveq]
        exact hval
      rw [h0]
      simp [hveq]
    · have hle : db.sessions.countP (fun x => decide (x.user_id = v ∧ x.left_at = none)) ≤ 1 :=
        hs v
      have hne : ¬ ((u = v ∧ (none : Option Nat) = none)) := by
        intro hc
        exact absurd hc.1.symm hveq
      rw [if_neg (by simpa using hne)]
      omega
  · intro sid t
    show (db.voiceStates ++ ((states_to_track vs).filter (fun p => p.1)).map
      (fun p => (⟨db.nextSessionId, p.2, now, none⟩ : VoiceStateRow))).countP
      (fun r => decide (r.session_id = sid ∧ r.state_type = t ∧ r.ended_at = none)) ≤ 1
    rw [List.countP_append]
    by_cases hsid : sid = db.nextSessionId
    · have h0 : db.voiceStates.countP
          (fun r => decide (r.session_id = sid ∧ r.state_type = t ∧ r.ended_at = none)) = 0 := by
        apply List.countP_eq_zero.mpr
        intro r hr
        have hlt := hb2 r hr
        simp only [decide_eq_true_eq]
        intro hc
        rw [hc.1, hsid] at hlt
        exact Nat.lt_irrefl _ hlt
      rw [h0, hsid]
      have := track_count_le_one vs db.nextSessionId now t
      omega
    · have h0 := track_count_other vs db.nextSessionId now sid t hsid
      rw [h0]
      have hle : db.voiceStates.countP
          (fun r => decide (r.session_id = sid ∧ r.state_type = t ∧ r.ended_at = none)) ≤ 1 :=
        hv sid t
      omega
  · intro x hx
    rcases List.mem_append.mp hx with h1 | h1
    · exact Nat.lt_trans (hb1 x h1) (Nat.lt_succ_self _)
    · rw [List.mem_singleton.mp h1]
      exact Nat.lt_succ_self _
  · intro r hr
    rcases List.mem_append.mp hr with h1 | h1
    · exact Nat.lt_trans (hb2 r h1) (Nat.lt_succ_self _)
    · rw [track_session_ids vs db.nextSessionId now r h1]
      exact Nat.lt_succ_self _

theorem leave_count_self_zero (db : DB) (u c now : Nat)
    (hle : openSessionCount db u ≤ 1)
    (hch : ∀ s ∈ db.sessions, s.user_id = u → s.left_at = none → s.channel_id = c) :
    openSessionCount (handle_voice_leave db u c now) u = 0 := by
  unfold handle_voice_leave
  cases hf : find_open_session db u c with
  | none =>
    have hall := forall_false_of_findLatest_eq_none hf
    show db.sessions.countP (fun x => decide (x.user_id = u ∧ x.left_at = none)) = 0
    apply List.countP_eq_zero.mpr
    intro s hs
    have hfs := hall s hs
    simp only [decide_eq_false_iff_not] at hfs
    simp only [decide_eq_true_eq]
    intro hcontra
    exact hfs ⟨hcontra.1, hch s hs hcontra.1 hcontra.2, hcontra.2⟩
  | some s =>
    dsimp only
    have hprop := findLatest_prop hf
    have hmem := findLatest_mem hf
    simp only [decide_eq_true_eq] at hprop
    show (replaceFirst s { s with left_at := some now } db.sessions).countP
      (fun x => decide (x.user_id = u ∧ x.left_at = none)) = 0
    have hold : (fun (x : SessionRow) => decide (x.user_id = u ∧ x.left_at = none)) s = true := by
      simp [hprop.1, hprop.2.2]
    have hnew : (fun (x : SessionRow) => decide (x.user_id = u ∧ x.left_at = none))
        { s with left_at := some now } = false := by simp
    have hclosed := countP_replaceFirst_closed
      (fun x => decide (x.user_id = u ∧ x.left_at = none)) s
      { s with left_at := some now } db.sessions hold hnew hmem
    have hle' : db.sessions.countP (fun x => decide (x.user_id = u ∧ x.left_at = none)) ≤ 1 :=
      hle
    omega

theorem move_inv (db : DB) (u c1 c2 now : Nat) (vs : VState) (h : StoreInv db)
    (hch : ∀ s ∈ db.sessions, s.user_id = u → s.left_at = none → s.channel_id = c1) :
    StoreInv (handle_voice_move db u c1 c2 vs now) := by
  unfold handle_voice_move
  exact join_inv _ u c2 now vs (leave_inv db u c1 now h)
    (leave_count_self_zero db u c1 now (h.1.2.1 u) hch)

theorem updFlag_frame (db : DB) (sid : Nat) (bf af : Bool) (t : VoiceStateType) (now : Nat) :
    ∃ vsl, upd_flag db sid bf af t now = { db with voiceStates := vsl } := by
  cases bf <;> cases af
  · exact ⟨db.voiceStates, rfl⟩
  · exact ⟨_, rfl⟩
  · exact ⟨_, rfl⟩
  · exact ⟨db.voiceStates, rfl⟩

theorem updFlag_count_other (db : DB) (sid : Nat) (bf af : Bool) (t : VoiceStateType)
    (now : Nat) (sid' : Nat) (t' : VoiceStateType) (hne : ¬(sid' = sid ∧ t' = t)) :
    openVoiceStateCount (upd_flag db sid bf af t now) sid' t' =
      openVoiceStateCount db sid' t' := by
  cases bf <;> cases af
  · rfl
  · show (db.voiceStates ++ [(⟨sid, t, now, none⟩ : VoiceStateRow)]).countP
        (fun r => decide (r.session_id = sid' ∧ r.state_type = t' ∧ r.ended_at = none))
      = db.voiceStates.countP
        (fun r => decide (r.session_id = sid' ∧ r.state_type = t' ∧ r.ended_at = none))
    rw [List.countP_append, List.countP_singleton]
    have hz : ¬ ((decide ((sid : Nat) = sid' ∧ t = t' ∧ (none : Option Nat) = none)) = true) := by
      simp only [decide_eq_true_eq]
      intro hc
      exact hne ⟨hc.1.symm, hc.2.1.symm⟩
    rw [if_neg hz]
    omega
  · show (closeFound (fun r => decide (r.session_id = sid ∧ r.state_type = t ∧ r.ended_at = none))
        (fun r => r.started_at) (fun r => { r with ended_at := some now })
        db.voiceStates).countP
        (fun r => decide (r.session_id = sid' ∧ r.state_type = t' ∧ r.ended_at = none))
      = db.voiceStates.countP
        (fun r => decide (r.session_id = sid' ∧ r.state_type = t' ∧ r.ended_at = none))
    apply countP_closeFound_eq
    intro a ha
    simp only [decide_eq_true_eq] at ha
    obtain ⟨ha1, ha2, ha3⟩ := ha
    by_cases hs' : a.session_id = sid'
    · have h1 : sid' = sid := by rw [← hs']; exact ha1
      have h2 : a.state_type ≠ t' := by
        intro hc
        exact hne ⟨h1, by rw [← hc]; exact ha2⟩
      simp [h2]
    · simp [hs']
  · rfl

theorem updFlag_count_self (db : DB) (sid : Nat) (bf af : Bool) (t : VoiceStateType) (now : Nat)
    (hle : openVoiceStateCount db sid t ≤ 1)
    (hz : bf = false → openVoiceStateCount db sid t = 0) :
    openVoiceStateCount (upd_flag db sid bf af t now) sid t ≤ 1 := by
  cases bf <;> cases af
  · exact hle
  · have h0 : db.voiceStates.countP
        (fun r => decide (r.session_id = sid ∧ r.state_type = t ∧ r.ended_at = none)) = 0 :=
      hz rfl
    show (db.voiceStates ++ [(⟨sid, t, now, none⟩ : VoiceStateRow)]).countP
        (fun r => decide (r.session_id = sid ∧ r.state_type = t ∧ r.ended_at = none)) ≤ 1
    rw [List.countP_append, h0, List.countP_singleton]
    simp
  · show (closeFound (fun r => decide (r.session_id = sid ∧ r.state_type = t ∧ r.ended_at = none))
        (fun r => r.started_at) (fun r => { r with ended_at := some now })
        db.voiceStates).countP
        (fun r => decide (r.session_id = sid ∧ r.state_type = t ∧ r.ended_at = none)) ≤ 1
    refine Nat.le_trans (countP_closeFound_le _ _ _ _ db.voiceStates ?_) hle
    intro a hpa hq
    simp at hq
  · exact hle

theorem updFlag_ids (db : DB) (sid : Nat) (bf af : Bool) (t : VoiceStateType) (now : Nat)
    (hsid : sid < db.nextSessionId)
    (hb2 : ∀ r ∈ db.voiceStates, r.session_id < db.nextSessionId) :
    ∀ r ∈ (upd_flag db sid bf af t now).voiceStates, r.session_id < db.nextSessionId := by
  cases bf <;> cases af
  · exact hb2
  · intro r hr
    rcases List.mem_append.mp hr with h1 | h1
    · exact hb2 r h1
    · rw [List.mem_singleton.mp h1]
      exact hsid
  · intro r hr
    rcases mem_of_mem_closeFound hr with h1 | ⟨a, ha, rfl⟩
    · exact hb2 r h1
    · exact hb2 a ha
  · exact hb2

theorem state_changes_flag (b a : VState) :
    ∀ p ∈ state_changes b a, p.1 = flag_of b p.2.2 := by
  intro p hp
  simp only [state_changes, List.mem_cons, List.not_mem_nil, or_false] at hp
  rcases hp with rfl | rfl | rfl | rfl | rfl | rfl
  all_goals rfl

theorem foldl_voiceStates_only {γ : Type} (F : DB → γ → DB)
    (hF : ∀ d x, ∃ vsl, F d x = { d with voiceStates := vsl }) :
    ∀ (l : List γ) (db : DB), ∃ vsl, l.foldl F db = { db with voiceStates := vsl } := by
  intro l
  induction l with
  | nil => intro db; exact ⟨db.voiceStates, rfl⟩
  | cons x xs ih =>
    intro db
    rw [List.foldl_cons]
    obtain ⟨v1, h1⟩ := hF db x
    obtain ⟨v2, h2⟩ := ih (F db x)
    exact ⟨v2, by rw [h2, h1]⟩

theorem updStates_fold_inv (sid now : Nat) :
    ∀ (l : List (Bool × Bool × VoiceStateType)) (db : DB),
      (l.map (fun p => p.2.2)).Nodup →
      (∀ p ∈ l, p.1 = false → openVoiceStateCount db sid p.2.2 = 0) →
      (∀ sid' t', openVoiceStateCount db sid' t' ≤ 1) →
      ∀ sid' t', openVoiceStateCount
        (l.foldl (fun d p => upd_flag d sid p.1 p.2.1 p.2.2 now) db) sid' t' ≤ 1 := by
  intro l
  induction l with
  | nil => intro db _ _ hinv; exact hinv
  | cons p tl ih =>
    intro db hnd hz hinv
    rw [List.foldl_cons]
    rw [List.map_cons] at hnd
    have hnd' : (tl.map (fun q => q.2.2)).Nodup := (List.nodup_cons.mp hnd).2
    have hhead : p.2.2 ∉ tl.map (fun q => q.2.2) := (List.nodup_cons.mp hnd).1
    have hinv' : ∀ sid' t',
        openVoiceStateCount (upd_flag db sid p.1 p.2.1 p.2.2 now) sid' t' ≤ 1 := by
      intro sid' t'
      by_cases hc : sid' = sid ∧ t' = p.2.2
      · rw [hc.1, hc.2]
        exact updFlag_count_self db sid p.1 p.2.1 p.2.2 now (hinv sid p.2.2)
          (fun hf => hz p (List.mem_cons_self _ _) hf)
      · rw [updFlag_count_other db sid p.1 p.2.1 p.2.2 now sid' t' hc]
        exact hinv sid' t'
    have hz' : ∀ q ∈ tl, q.1 = false →
        openVoiceStateCount (upd_flag db sid p.1 p.2.1 p.2.2 now) sid q.2.2 = 0 := by
      intro q hq hqf
      have hneq : q.2.2 ≠ p.2.2 := by
        intro hc
        exact hhead (hc ▸ List.mem_map_of_mem (fun x => x.2.2) hq)
      rw [updFlag_count_other db sid p.1 p.2.1 p.2.2 now sid q.2.2
        (fun hc => hneq hc.2)]
      exact hz q (List.mem_cons_of_mem _ hq) hqf
    exact ih (upd_flag db sid p.1 p.2.1 p.2.2 now) hnd' hz' hinv'

theorem updStates_fold_ids (sid now : Nat) :
    ∀ (l : List (Bool × Bool × VoiceStateType)) (db : DB),
      sid < db.nextSessionId →
      (∀ r ∈ db.voiceStates, r.session_id < db.nextSessionId) →
      ∀ r ∈ (l.foldl (fun d p => upd_flag d sid p.1 p.2.1 p.2.2 now) db).voiceStates,
        r.session_id < db.nextSessionId := by
  intro l
  induction l with
  | nil => intro db _ hb2; exact hb2
  | cons p tl ih =>
    intro db hsid hb2
    rw [List.foldl_cons]
    obtain ⟨vsl, hfr⟩ := updFlag_frame db sid p.1 p.2.1 p.2.2 now
    have hnext : (upd_flag db sid p.1 p.2.1 p.2.2 now).nextSessionId = db.nextSessionId := by
      rw [hfr]
    have hb2' := updFlag_ids db sid p.1 p.2.1 p.2.2 now hsid hb2
    have hb2'' : ∀ r ∈ (upd_flag db sid p.1 p.2.1 p.2.2 now).voiceStates,
        r.session_id < (upd_flag db sid p.1 p.2.1 p.2.2 now).nextSessionId := by
      rw [hnext]
      exact hb2'
    have hsid' : sid < (upd_flag db sid p.1 p.2.1 p.2.2 now).nextSessionId := by
      rw [hnext]
      exact hsid
    intro r hr
    have hres := ih (upd_flag db sid p.1 p.2.1 p.2.2 now) hsid' hb2'' r hr
    rw [hnext] at hres
    exact hres

theorem hvsc_inv (db : DB) (u : Nat) (b a : VState) (now : Nat) (h : StoreInv db)
    (hval : ∀ s ∈ db.sessions, s.user_id = u → s.left_at = none →
      ∀ r ∈ db.voiceStates, r.session_id = s.id → r.ended_at = none →
        flag_of b r.state_type = true) :
    StoreInv (handle_voice_state_change db u b a now) := by
  unfold handle_voice_state_change
  cases hch : a.channel with
  | none => exact h
  | some c =>
    dsimp only
    cases hf : find_open_session db u c with
    | none => exact h
    | some s =>
      dsimp only
      obtain ⟨⟨hp, hs, hv, hact, hn⟩, hb1, hb2⟩ := h
      have hsmem := findLatest_mem hf
      have hsprop := findLatest_prop hf
      simp only [decide_eq_true_eq] at hsprop
      unfold update_voice_states
      obtain ⟨vsl, hfr⟩ := foldl_voiceStates_only
        (fun d p => upd_flag d s.id p.1 p.2.1 p.2.2 now)
        (fun d p => updFlag_frame d s.id p.1 p.2.1 p.2.2 now)
        (state_changes b a) db
      refine ⟨⟨?_, ?_, ?_, ?_, ?_⟩, ?_, ?_⟩
      · intro v; rw [hfr]; exact hp v
      · intro v; rw [hfr]; exact hs v
      · intro sid' t'
        refine updStates_fold_inv s.id now (state_changes b a) db ?_ ?_ hv sid' t'
        · have hm : (state_changes b a).map (fun p => p.2.2) =
              [VoiceStateType.deaf, VoiceStateType.mute, VoiceStateType.self_deaf,
               VoiceStateType.self_mute, VoiceStateType.self_stream,
               VoiceStateType.self_video] := rfl
          rw [hm]
          decide
        · intro p hpmem hpf
          show db.voiceStates.countP (fun r =>
            decide (r.session_id = s.id ∧ r.state_type = p.2.2 ∧ r.ended_at = none)) = 0
          apply List.countP_eq_zero.mpr
          intro r hrmem
          simp only [decide_eq_true_eq]
          intro hc
          have hflag := hval s hsmem hsprop.1 hsprop.2.2 r hrmem hc.1 hc.2.2
          have hpq := state_changes_flag b a p hpmem
          rw [hpf, ← hc.2.1, hflag] at hpq
          exact absurd hpq (by decide)
      · intro v ty n; rw [hfr]; exact hact v ty n
      · intro v; rw [hfr]; exact hn v
      · rw [hfr]; exact hb1
      · have hnext : ((state_changes b a).foldl
            (fun d p => upd_flag d s.id p.1 p.2.1 p.2.2 now) db).nextSessionId =
            db.nextSessionId := by
          rw [hfr]
        rw [hnext]
        exact updStates_fold_ids s.id now (state_changes b a) db (hb1 s hsmem) hb2

theorem eas_step_inv (db : DB) (s : SessionRow) (now : Nat) (h : StoreInv db)
    (hid : s.id < db.nextSessionId) :
    StoreInv (end_active_voice_states
      { db with sessions := replaceFirst s { s with left_at := some now } db.sessions }
      s.id now) := by
  obtain ⟨⟨hp, hs, hv, hact, hn⟩, hb1, hb2⟩ := h
  refine ⟨⟨hp, ?_, ?_, hact, hn⟩, ?_, ?_⟩
  · intro v
    show (replaceFirst s { s with left_at := some now } db.sessions).countP
        (fun x => decide (x.user_id = v ∧ x.left_at = none)) ≤ 1
    refine Nat.le_trans (countP_replaceFirst_le _ s { s with left_at := some now }
      db.sessions ?_) (hs v)
    intro hnew
    simp at hnew
  · intro sid t
    show (db.voiceStates.map (fun r => if r.session_id = s.id ∧ r.ended_at = none
        then { r with ended_at := some now } else r)).countP
        (fun r => decide (r.session_id = sid ∧ r.state_type = t ∧ r.ended_at = none)) ≤ 1
    refine Nat.le_trans (countP_map_le_of _ _ db.voiceStates ?_) (hv sid t)
    intro r hr
    by_cases hc : r.session_id = s.id ∧ r.ended_at = none
    · rw [if_pos hc] at hr
      simp at hr
    · rw [if_neg hc] at hr
      exact hr
  · intro x hx
    rcases mem_of_mem_replaceFirst hx with h1 | h1
    · exact hb1 x h1
    · rw [h1]
      exact hid
  · intro r hr
    obtain ⟨x, hxmem, rfl⟩ := List.mem_map.mp hr
    by_cases hc : x.session_id = s.id ∧ x.ended_at = none
    · rw [if_pos hc]
      exact hb2 x hxmem
    · rw [if_neg hc]
      exact hb2 x hxmem

theorem eas_fold_inv (now N : Nat) :
    ∀ (l : List SessionRow) (db : DB),
      (∀ s ∈ l, s.id < N) → db.nextSessionId = N → StoreInv db →
      StoreInv (l.foldl (fun d s => end_active_voice_states
        { d with sessions := replaceFirst s { s with left_at := some now } d.sessions }
        s.id now) db) := by
  intro l
  induction l with
  | nil => intro db _ _ h; exact h
  | cons s tl ih =>
    intro db hids hN h
    rw [List.foldl_cons]
    have hstep := eas_step_inv db s now h (by rw [hN]; exact hids s (List.mem_cons_self _ _))
    have hN' : (end_active_voice_states
        { db with sessions := replaceFirst s { s with left_at := some now } db.sessions }
        s.id now).nextSessionId = N := hN
    exact ih _ (fun x hx => hids x (List.mem_cons_of_mem _ hx)) hN' hstep

theorem eas_inv (db : DB) (u now : Nat) (h : StoreInv db) :
    StoreInv (end_active_sessions db u now) := by
  have hfold := eas_fold_inv now db.nextSessionId
    (db.sessions.filter (fun s => decide (s.user_id = u ∧ s.left_at = none))) db
    (fun s hsf => h.2.1 s (List.mem_of_mem_filter hsf)) rfl h
  obtain ⟨⟨hp, hs, hv, hact, hn⟩, hb1, hb2⟩ := hfold
  unfold end_active_sessions
  dsimp only
  refine ⟨⟨?_, ?_, ?_, ?_, ?_⟩, ?_, ?_⟩
  · intro v
    refine Nat.le_trans (countP_closeFound_le _ _ _ _ _ ?_) (hp v)
    intro x hpx hq
    simp at hq
  · intro v
    exact hs v
  · intro sid t
    exact hv sid t
  · intro v ty n
    refine Nat.le_trans (countP_map_le_of _ _ _ ?_) (hact v ty n)
    intro r hr
    by_cases hc : r.user_id = u ∧ r.ended_at = none
    · rw [if_pos hc] at hr
      simp at hr
    · rw [if_neg hc] at hr
      exact hr
  · intro v
    exact hn v
  · exact hb1
  · exact hb2

theorem om_inv (db : DB) (m : Member) (mid cid : Nat) (ty : String) (att emb : Bool)
    (cc sa now : Nat) (h : StoreInv db) :
    StoreInv (on_message db m mid cid ty att emb cc sa now) := by
  unfold on_message
  split
  · exact h
  · dsimp only
    split
    · exact gocu_inv db m now h
    · obtain ⟨⟨hp, hs, hv, hact, hn⟩, hb1, hb2⟩ := gocu_inv db m now h
      exact ⟨⟨hp, hs, hv, hact, hn⟩, hb1, hb2⟩

theorem ome_inv (db : DB) (m : Member) (mid cc : Nat) (att emb : Bool) (h : StoreInv db) :
    StoreInv (on_message_edit db m mid cc att emb) := by
  unfold on_message_edit
  split
  · exact h
  · obtain ⟨⟨hp, hs, hv, hact, hn⟩, hb1, hb2⟩ := h
    exact ⟨⟨hp, hs, hv, hact, hn⟩, hb1, hb2⟩

theorem gocu_frame (db : DB) (m : Member) (now : Nat) :
    ∃ us ns, get_or_create_user db m now = { db with users := us, names := ns } := by
  unfold get_or_create_user create_name_history_entry
  split
  · exact ⟨db.users, db.names, rfl⟩
  · exact ⟨_, _, rfl⟩

theorem hsc_frame (db : DB) (u : Nat) (raw : String) (now : Nat) :
    ∃ pres, handle_status_change db u raw now = { db with presence := pres } := by
  unfold handle_status_change
  exact ⟨_, rfl⟩

theorem opu_inv (db : DB) (b a : Member) (now : Nat) (h : StoreInv db)
    (hval : validEvent db (.presenceUpdate b a) = true) :
    StoreInv (on_presence_update db b a now) := by
  unfold on_presence_update
  split
  · exact h
  · dsimp only
    unfold validEvent at hval
    dsimp only at hval
    obtain ⟨us, ns, hg⟩ := gocu_frame db a now
    have h1 := gocu_inv db a now h
    by_cases hst : b.statusName ≠ a.statusName
    · rw [if_pos hst]
      have h2 := hsc_inv _ a.id a.statusName now h1
      obtain ⟨pres, hp2⟩ := hsc_frame (get_or_create_user db a now) a.id a.statusName now
      by_cases hacts : b.activities ≠ a.activities
      · rw [if_pos hacts]
        refine hcsc_inv _ a.id b.activities a.activities now
          (hac_inv _ a.id b.activities a.activities now h2 ?_)
        rw [hp2, hg]
        intro r hr hru hropen
        have hall := List.all_eq_true.mp hval r hr
        rw [Bool.or_eq_true] at hall
        rcases hall with h3 | h3
        · exfalso
          simp only [Bool.not_eq_true', decide_eq_false_iff_not] at h3
          exact h3 ⟨hru, hropen⟩
        · simpa using h3
      · rw [if_neg hacts]
        exact h2
    · rw [if_neg hst]
      by_cases hacts : b.activities ≠ a.activities
      · rw [if_pos hacts]
        refine hcsc_inv _ a.id b.activities a.activities now
          (hac_inv _ a.id b.activities a.activities now h1 ?_)
        rw [hg]
        intro r hr hru hropen
        have hall := List.all_eq_true.mp hval r hr
        rw [Bool.or_eq_true] at hall
        rcases hall with h3 | h3
        · exfalso
          simp only [Bool.not_eq_true', decide_eq_false_iff_not] at h3
          exact h3 ⟨hru, hropen⟩
        · simpa using h3
      · rw [if_neg hacts]
        exact h1

theorem ovsu_inv (db : DB) (m : Member) (b a : VState) (now : Nat) (h : StoreInv db)
    (hval : validEvent db (.voiceUpdate m b a) = true) :
    StoreInv (on_voice_state_update db m b a now) := by
  unfold on_voice_state_update
  dsimp only
  unfold validEvent at hval
  dsimp only at hval
  obtain ⟨us, ns, hg⟩ := gocu_frame db m now
  have h1 := gocu_inv db m now h
  cases hb : b.channel with
  | some c1 =>
    rw [hb] at hval
    cases hac : a.channel with
    | none =>
      exact leave_inv _ m.id c1 now h1
    | some c2 =>
      rw [hac] at hval
      dsimp only at hval
      dsimp only
      by_cases hcc : c1 ≠ c2
      · rw [if_pos hcc]
        rw [if_neg (fun hc => hcc (by rw [hc]))] at hval
        refine move_inv _ m.id c1 c2 now a h1 ?_
        rw [hg]
        intro s hs hsu hsopen
        have hall := List.all_eq_true.mp hval s hs
        rw [Bool.or_eq_true] at hall
        rcases hall with h3 | h3
        · exfalso
          simp only [Bool.not_eq_true', decide_eq_false_iff_not] at h3
          exact h3 ⟨hsu, hsopen⟩
        · simpa using h3
      · rw [if_neg hcc]
        have hceq : c1 = c2 := not_ne_iff.mp hcc
        rw [if_pos hceq] at hval
        refine hvsc_inv _ m.id b a now h1 ?_
        rw [hg]
        intro s hs hsu hsopen r hr hrs hropen
        have hall := List.all_eq_true.mp hval s hs
        rw [Bool.or_eq_true] at hall
        rcases hall with h3 | h3
        · exfalso
          simp only [Bool.not_eq_true', decide_eq_false_iff_not] at h3
          exact h3 ⟨hsu, hsopen⟩
        · have hall2 := List.all_eq_true.mp h3 r hr
          rw [Bool.or_eq_true] at hall2
          rcases hall2 with h4 | h4
          · exfalso
            simp only [Bool.not_eq_true', decide_eq_false_iff_not] at h4
            exact h4 ⟨hrs, hropen⟩
          · exact h4
  | none =>
    rw [hb] at hval
    cases hac : a.channel with
    | none => exact h1
    | some c =>
      rw [hac] at hval
      dsimp only at hval
      refine join_inv _ m.id c now a h1 ?_
      rw [hg]
      show db.sessions.countP (fun x => decide (x.user_id = m.id ∧ x.left_at = none)) = 0
      apply List.countP_eq_zero.mpr
      intro s hs
      have hall := List.all_eq_true.mp hval s hs
      simp only [Bool.not_eq_true', decide_eq_false_iff_not] at hall
      intro hdec
      simp only [decide_eq_true_eq] at hdec
      exact hall hdec

theorem step_inv (db : DB) (e : Event) (now : Nat) (h : StoreInv db)
    (hval : validEvent db e = true) : StoreInv (step db e now) := by
  cases e with
  | memberJoin m => exact gocu_inv db m now h
  | memberRemove m => exact eas_inv db m.id now h
  | memberUpdate b a => exact omu_inv db b a now h
  | presenceUpdate b a => exact opu_inv db b a now h hval
  | messageSent m mid cid ty att emb cc sa =>
    exact om_inv db m mid cid ty att emb cc sa now h
  | messageEdit m mid cc att emb => exact ome_inv db m mid cc att emb h
  | messageDelete m => exact h
  | voiceUpdate m bv av => exact ovsu_inv db m bv av now h hval

theorem runFrom_inv (tr : List (Event × Nat)) :
    ∀ db : DB, StoreInv db → validFrom db tr = true → StoreInv (runFrom db tr) := by
  induction tr with
  | nil => intro db h _; exact h
  | cons et rest ih =>
    intro db h hv
    simp only [validFrom, Bool.and_eq_true] at hv
    simp only [runFrom]
    exact ih (step db et.1 et.2) (step_inv db et.1 et.2 h hv.1) hv.2

theorem storeInv_empty : StoreInv emptyDB := by
  refine ⟨⟨?_, ?_, ?_, ?_, ?_⟩, ?_, ?_⟩
  · intro u; exact Nat.zero_le 1
  · intro u; exact Nat.zero_le 1
  · intro sid t; exact Nat.zero_le 1
  · intro u ty n; exact Nat.zero_le 1
  · intro u; exact Nat.zero_le 1
  · intro s hs; exact absurd hs (List.not_mem_nil s)
  · intro r hr; exact absurd hr (List.not_mem_nil r)

/-- C1 counterexample: the unconditional claim is false. Two consecutive
voice-join events for the same subject (a transition sequence a
gateway-ordered stream never produces, but "any sequence of handled
events" includes it) leave two session rows of that subject with their
close timestamp unset. -/
theorem c1_counterexample :
    ¬ AtMostOneOpen (runFrom emptyDB
      [(Event.voiceUpdate ⟨1, false, "u", "d", none, "online", [], 0⟩
          ⟨none, false, false, false, false, false, false⟩
          ⟨some 7, false, false, false, false, false, false⟩, 1),
       (Event.voiceUpdate ⟨1, false, "u", "d", none, "online", [], 0⟩
          ⟨none, false, false, false, false, false, false⟩
          ⟨some 7, false, false, false, false, false, false⟩, 2)]) := by
  intro h
  have h2 := h.2.1 1
  revert h2
  decide

/-- C1 (corrected): after any stream-consistent sequence of handled
events starting from the empty store (each event consistent with the
store it meets, as the transitions of a gateway-ordered stream are:
a join finds no open session of the subject, a move's old channel and an
in-place change's before-flags match the open rows, a presence update's
before-activities cover the subject's open activity rows), at most one
row per (subject, dimension-key) pair in each of the five interval
dimensions has its close timestamp unset. Without the consistency
hypothesis the claim is refuted by c1_counterexample. -/
theorem c1_at_most_one_open_per_dimension_key (tr : List (Event × Nat))
    (hval : validFrom emptyDB tr = true) :
    AtMostOneOpen (runFrom emptyDB tr) :=
  (runFrom_inv tr emptyDB storeInv_empty hval).1

theorem c1_witness :
    validFrom emptyDB
      [(Event.voiceUpdate ⟨1, false, "u", "d", none, "online", [], 0⟩
          ⟨none, false, false, false, false, false, false⟩
          ⟨some 7, true, false, false, false, false, false⟩, 1),
       (Event.voiceUpdate ⟨1, false, "u", "d", none, "online", [], 0⟩
          ⟨some 7, true, false, false, false, false, false⟩
          ⟨none, true, false, false, false, false, false⟩, 2)] = true ∧
    AtMostOneOpen ((runFrom emptyDB
      [(Event.voiceUpdate ⟨1, false, "u", "d", none, "online", [], 0⟩
          ⟨none, false, false, false, false, false, false⟩
          ⟨some 7, true, false, false, false, false, false⟩, 1),
       (Event.voiceUpdate ⟨1, false, "u", "d", none, "online", [], 0⟩
          ⟨some 7, true, false, false, false, false, false⟩
          ⟨none, true, false, false, false, false, false⟩, 2)])) :=
  ⟨by decide, c1_at_most_one_open_per_dimension_key _ (by decide)⟩
